import Mathlib

/-!
A verification development for the orchestration core of the
generic-corp-x-craft-agents repository: file-backed entity stores
(agents, tasks, messages, board items, org tree), the org-tree
manager, the delegation flow, and the orchestration engine.

The TypeScript source is shallowly embedded: each storage directory
becomes an association list from key to record (an atomic-rename write
is an overwriting insert), JavaScript strings become Lean String or
List Char, and the wall clock is passed explicitly as an ISO-8601
timestamp argument wherever the source calls new Date().
-/

/-! ## Association-list stores

One-record-per-file directories (tasks/<id>.json, agents/<name>/config.json,
results mailboxes) are modelled as association lists.  lookupA models a
read of the file named k; upsert models the write-tmp-then-rename of a
record, which atomically replaces any previous content of that file.
-/

def lookupA {α : Type} (l : List (String × α)) (k : String) : Option α :=
  match l with
  | [] => none
  | (k', v) :: rest => if k' = k then some v else lookupA rest k

def upsert {α : Type} (k : String) (v : α) (l : List (String × α)) : List (String × α) :=
  match l with
  | [] => [(k, v)]
  | (k', v') :: rest => if k' = k then (k, v) :: rest else (k', v') :: upsert k v rest

/-! ## Enum types (constants.ts) -/

inductive AgentLevel where
  | ic | lead | manager | vp | csuite
deriving DecidableEq, Repr

inductive AgentStatus where
  | idle | running | error | offline
deriving DecidableEq, Repr

inductive TaskStatus where
  | pending | running | review | completed | failed | blocked
deriving DecidableEq, Repr

/-- The serialized form of a TaskStatus, as it appears in JSON records
and in the strings passed to handleChildCompletion. -/
def TaskStatus.str : TaskStatus → String
  | .pending => "pending"
  | .running => "running"
  | .review => "review"
  | .completed => "completed"
  | .failed => "failed"
  | .blocked => "blocked"

/-- The status argument of completeAgent and finish_task is restricted by
its TypeScript type to the three terminal statuses. -/
inductive TerminalStatus where
  | completed | failed | blocked
deriving DecidableEq, Repr

def TerminalStatus.toTaskStatus : TerminalStatus → TaskStatus
  | .completed => .completed
  | .failed => .failed
  | .blocked => .blocked

def TaskStatus.isTerminal : TaskStatus → Bool
  | .completed => true
  | .failed => true
  | .blocked => true
  | _ => false

/-! ## Entity records (types.ts) -/

structure TaskTag where
  label : String
  color : String
  bg : String
deriving DecidableEq, Repr

structure AgentConfig where
  name : String
  displayName : String
  role : String
  department : String
  level : AgentLevel
  personality : String
  status : AgentStatus
  currentTaskId : Option String
  avatarColor : Option String
  createdAt : String
  updatedAt : String
deriving DecidableEq, Repr

structure TaskState where
  id : String
  parentTaskId : Option String
  assigneeId : String
  delegatorId : Option String
  prompt : String
  context : Option String
  priority : Int
  status : TaskStatus
  tags : List TaskTag
  result : Option String
  costUsd : Option Rat
  durationMs : Option Rat
  numTurns : Option Rat
  createdAt : String
  startedAt : Option String
  completedAt : Option String
deriving DecidableEq, Repr

inductive MessageType where
  | direct | system | chat
deriving DecidableEq, Repr

inductive MessageStatus where
  | pending | delivered | read
deriving DecidableEq, Repr

structure Message where
  id : String
  fromAgentId : Option String
  toAgentId : String
  threadId : String
  subject : Option String
  body : String
  type : MessageType
  status : MessageStatus
  createdAt : String
  readAt : Option String
deriving DecidableEq, Repr

/-- Board items carry their type as the raw frontmatter string, matching
the unchecked cast in BoardStorage.fromMarkdown; the valid values are the
four members of BOARD_ITEM_TYPES. -/
structure BoardItem where
  id : String
  type : String
  author : String
  summary : String
  body : String
  createdAt : String
  path : String
deriving DecidableEq, Repr

/-! ## ISO-8601 timestamps

Date.prototype.toISOString always renders as YYYY-MM-DDTHH:MM:SS.mmmZ
(24 characters).  WellFormedIso characterizes exactly those strings.
-/

inductive TsClass where
  | digit
  | lit (c : Char)
deriving DecidableEq, Repr

def classMatches : TsClass → Char → Bool
  | .digit, c => c.isDigit
  | .lit k, c => c = k

def matchesPattern : List TsClass → List Char → Bool
  | [], [] => true
  | cls :: ps, c :: cs => classMatches cls c && matchesPattern ps cs
  | _, _ => false

def isoPattern : List TsClass :=
  [.digit, .digit, .digit, .digit, .lit '-', .digit, .digit, .lit '-', .digit, .digit,
   .lit 'T', .digit, .digit, .lit ':', .digit, .digit, .lit ':', .digit, .digit,
   .lit '.', .digit, .digit, .digit, .lit 'Z']

def WellFormedIso (s : String) : Prop := matchesPattern isoPattern s.data = true

instance (s : String) : Decidable (WellFormedIso s) := by
  unfold WellFormedIso; infer_instance

/-- One character of the regex replace /[:.]/g → "-" used on the
toISOString() result when building a delegation result filename. -/
def sanitizeChar (c : Char) : Char :=
  if c = ':' ∨ c = '.' then '-' else c

/-- Boolean lexicographic strict order on char lists: the order in which
a directory listing of the result filenames sorts. -/
def lexLtB : List Char → List Char → Bool
  | [], [] => false
  | [], _ :: _ => true
  | _ :: _, [] => false
  | a :: as, b :: bs => if a < b then true else if b < a then false else lexLtB as bs

/-! ## new Date(s).getTime() for ISO strings

TaskStorage.list and MessageStorage sort by new Date(createdAt).getTime().
For the ISO strings this codebase writes, that is the epoch-millisecond
value; parseIsoMs implements the civil-calendar conversion and returns
none on anything outside the toISOString format (the NaN case).
-/

def readNat (l : List Char) : Int :=
  l.foldl (fun acc c => acc * 10 + ((c.toNat : Int) - 48)) 0

def daysFromCivil (y m d : Int) : Int :=
  let y' := if m ≤ 2 then y - 1 else y
  let era := (if 0 ≤ y' then y' else y' - 399) / 400
  let yoe := y' - era * 400
  let mp := (m + 9) % 12
  let doy := (153 * mp + 2) / 5 + d - 1
  let doe := yoe * 365 + yoe / 4 - yoe / 100 + doy
  era * 146097 + doe - 719468

def parseIsoMs (s : String) : Option Int :=
  if matchesPattern isoPattern s.data then
    let l := s.data
    let y := readNat (l.take 4)
    let mo := readNat ((l.drop 5).take 2)
    let d := readNat ((l.drop 8).take 2)
    let h := readNat ((l.drop 11).take 2)
    let mi := readNat ((l.drop 14).take 2)
    let sec := readNat ((l.drop 17).take 2)
    let ms := readNat ((l.drop 20).take 3)
    some ((((daysFromCivil y mo d * 24 + h) * 60 + mi) * 60 + sec) * 1000 + ms)
  else
    none

/-- The sort key actually fed to the comparator; tasks in this system
always carry toISOString() timestamps, for which the getD branch is dead. -/
def dateNum (s : String) : Int := (parseIsoMs s).getD 0

/-! ## JavaScript string trimming (String.prototype.trim / trimEnd) -/

def trimEndL (l : List Char) : List Char :=
  (l.reverse.dropWhile Char.isWhitespace).reverse

def trimL (l : List Char) : List Char :=
  trimEndL (l.dropWhile Char.isWhitespace)

/-! ## Delegation flow (delegation-flow.ts handleChildCompletion)

A mailbox directory agents/<name>/results/ is an association list from
filename to file content; the map from agent name to mailbox models the
agents/ tree.  mkdir recursive corresponds to getD [] on a missing
mailbox; writeFile-tmp-then-rename is upsert.
-/

abbrev Mailboxes := List (String × List (String × String))

def resultFileName (nowIso childTaskId : String) : String :=
  String.mk (nowIso.data.map sanitizeChar) ++ "-" ++ childTaskId ++ ".md"

def childResultBody (childTaskId : String) (childResult : Option String)
    (childStatus : String) (nowIso : String) : String :=
  "# Child Task Result\n\n**Task ID**: " ++ childTaskId ++
  "\n**Status**: " ++ childStatus ++
  "\n**Completed**: " ++ nowIso ++
  "\n\n---\n\n" ++
  (match childResult with
   | some r => String.mk (trimL r.data)
   | none => "(no result provided)") ++
  "\n"

def handleChildCompletion (mailboxes : Mailboxes) (childTaskId : String)
    (childResult : Option String) (childStatus : String)
    (_parentTaskId : String) (parentAgentName : String) (nowIso : String) : Mailboxes :=
  let resultsDir := (lookupA mailboxes parentAgentName).getD []
  let fileName := resultFileName nowIso childTaskId
  let body := childResultBody childTaskId childResult childStatus nowIso
  upsert parentAgentName (upsert fileName body resultsDir) mailboxes

/-! ## Org tree (storage/org.ts)

OrgNode is the recursive node shape of types.ts.  The source walks and
mutates the nested structure in place; here each OrgStorage method is a
pure function from tree to tree.  Functions that the source writes as
one recursive procedure over an array are split into mutual node/list
pairs so that the recursion is structural; filters followed by recursion
into the filtered array are fused into the list case for the same reason.
-/

inductive OrgNode where
  | mk (agentName : String) (parentAgentName : Option String)
      (children : List OrgNode) (position : Nat)
deriving Repr

def OrgNode.agentName : OrgNode → String
  | .mk a _ _ _ => a

def OrgNode.parentAgentName : OrgNode → Option String
  | .mk _ p _ _ => p

def OrgNode.children : OrgNode → List OrgNode
  | .mk _ _ c _ => c

def OrgNode.position : OrgNode → Nat
  | .mk _ _ _ pos => pos

structure OrgTree where
  roots : List OrgNode
deriving Repr

mutual
/-- findNode's check of a single node: the node itself, then a recursive
scan of its children. -/
def findNode1 : OrgNode → String → Option OrgNode
  | .mk a p c pos, name =>
    if a = name then some (.mk a p c pos)
    else findNodeL c name
/-- OrgStorage.findNode: depth-first scan, node before children before
later siblings. -/
def findNodeL : List OrgNode → String → Option OrgNode
  | [], _ => none
  | n :: rest, name =>
    match findNode1 n name with
    | some f => some f
    | none => findNodeL rest name
end

mutual
/-- removeFromChildren applied to one node: filter the children array,
then recurse into the remaining children. -/
def removeNode1 (name : String) : OrgNode → OrgNode
  | .mk a p c pos => .mk a p (removeNodeL name c) pos
/-- A node list after filter(n => n.agentName !== name) with
removeFromChildren applied to each survivor. -/
def removeNodeL (name : String) : List OrgNode → List OrgNode
  | [] => []
  | n :: rest =>
    if n.agentName = name then removeNodeL name rest
    else removeNode1 name n :: removeNodeL name rest
end

/-- OrgStorage.removeFromTree: filter the roots, then removeFromChildren
over the whole forest. -/
def removeFromTree (tree : OrgTree) (name : String) : OrgTree :=
  { roots := removeNodeL name tree.roots }

mutual
/-- Append mkChild (given the current sibling count, which the source
writes into position before pushing) to the first node named pname in
depth-first order; none when pname is absent, mirroring the null check
on findNode's result before parent.children.push(node). -/
def appendChildAt1 (pname : String) (mkChild : Nat → OrgNode) : OrgNode → Option OrgNode
  | .mk a p c pos =>
    if a = pname then some (.mk a p (c ++ [mkChild c.length]) pos)
    else
      match appendChildAtL pname mkChild c with
      | some c' => some (.mk a p c' pos)
      | none => none
def appendChildAtL (pname : String) (mkChild : Nat → OrgNode) :
    List OrgNode → Option (List OrgNode)
  | [] => none
  | n :: rest =>
    match appendChildAt1 pname mkChild n with
    | some n' => some (n' :: rest)
    | none =>
      match appendChildAtL pname mkChild rest with
      | some rest' => some (n :: rest')
      | none => none
end

/-- OrgStorage.setParent. -/
def setParent (tree : OrgTree) (agentName : String)
    (parentAgentName : Option String) : OrgTree :=
  let tree' := removeFromTree tree agentName
  match parentAgentName with
  | none =>
    { roots := tree'.roots ++ [.mk agentName none [] tree'.roots.length] }
  | some p =>
    match appendChildAtL p (fun len => .mk agentName (some p) [] len) tree'.roots with
    | some roots' => { roots := roots' }
    | none =>
      { roots := tree'.roots ++ [.mk agentName (some p) [] tree'.roots.length] }

/-- OrgStorage.getParent. -/
def getParent (tree : OrgTree) (agentName : String) : Option String :=
  match findNodeL tree.roots agentName with
  | some n => n.parentAgentName
  | none => none

/-- OrgStorage.getChildren. -/
def getChildren (tree : OrgTree) (agentName : String) : List OrgNode :=
  match findNodeL tree.roots agentName with
  | some n => n.children
  | none => []

/-- The in-place updates child.parentAgentName = parentName and
child.position = ... performed on an orphan before it is pushed; its
children array travels with it. -/
def setMeta (n : OrgNode) (p : Option String) (pos : Nat) : OrgNode :=
  match n with
  | .mk a _ c _ => .mk a p c pos

/-- One reparenting step of removeAgent: the orphan child has its
parentAgentName and position rewritten and is pushed onto the removed
node's former parent, or onto the root list when that parent is null or
not found. -/
def removeAgentStep (parentName : Option String) (t : OrgTree) (child : OrgNode) : OrgTree :=
  match parentName with
  | none =>
    { roots := t.roots ++ [setMeta child none t.roots.length] }
  | some p =>
    match appendChildAtL p (fun len => setMeta child (some p) len) t.roots with
    | some roots' => { roots := roots' }
    | none =>
      { roots := t.roots ++ [setMeta child (some p) t.roots.length] }

/-- OrgStorage.removeAgent. -/
def removeAgent (tree : OrgTree) (agentName : String) : OrgTree :=
  match findNodeL tree.roots agentName with
  | none => tree
  | some node =>
    let parentName := node.parentAgentName
    let orphans := node.children
    let tree' := removeFromTree tree agentName
    orphans.foldl (removeAgentStep parentName) tree'

mutual
/-- The agent names carried by a node and its whole subtree, in
depth-first order. -/
def names1 : OrgNode → List String
  | .mk a _ c _ => a :: namesL c
def namesL : List OrgNode → List String
  | [] => []
  | n :: rest => names1 n ++ namesL rest
end

/-! ## TaskStorage.list and MessageStorage orderings

A directory read yields records in an unspecified order; the stored
argument of each list function below quantifies over that order.
Array.prototype.sort with a comparator is a stable sort; it is modelled
by List.insertionSort with the corresponding total preorder.
-/

/-- The comparator (a, b) => new Date(b.createdAt) - new Date(a.createdAt):
descending by timestamp. -/
def taskDescLe (a b : TaskState) : Prop := dateNum b.createdAt ≤ dateNum a.createdAt

instance : DecidableRel taskDescLe := fun a b => by unfold taskDescLe; infer_instance

instance : IsTotal TaskState taskDescLe :=
  ⟨fun a b => Int.le_total (dateNum b.createdAt) (dateNum a.createdAt)⟩

instance : IsTrans TaskState taskDescLe :=
  ⟨fun _ _ _ h1 h2 => le_trans h2 h1⟩

/-- The filter conditions of TaskStorage.list; the falsy-guard shape
filter?.assigneeId && ... is modelled by the Option match. -/
def taskFilterPred (assigneeFilter statusFilter : Option String) (t : TaskState) : Bool :=
  (match assigneeFilter with
   | some a => t.assigneeId = a
   | none => true) &&
  (match statusFilter with
   | some s => t.status.str = s
   | none => true)

/-- TaskStorage.list: read every record, apply the optional filters, sort
newest-first. -/
def taskStorageList (stored : List TaskState)
    (assigneeFilter statusFilter : Option String) : List TaskState :=
  List.insertionSort taskDescLe (stored.filter (taskFilterPred assigneeFilter statusFilter))

/-- The comparator (a, b) => new Date(a.createdAt) - new Date(b.createdAt):
ascending, used for message threads and unread aggregation. -/
def msgAscLe (a b : Message) : Prop := dateNum a.createdAt ≤ dateNum b.createdAt

instance : DecidableRel msgAscLe := fun a b => by unfold msgAscLe; infer_instance

instance : IsTotal Message msgAscLe :=
  ⟨fun a b => Int.le_total (dateNum a.createdAt) (dateNum b.createdAt)⟩

instance : IsTrans Message msgAscLe :=
  ⟨fun _ _ _ h1 h2 => le_trans h1 h2⟩

/-- MessageStorage.listThread over the records of one thread directory. -/
def listThread (stored : List Message) : List Message :=
  List.insertionSort msgAscLe stored

/-- MessageStorage.getUnread: every thread is listed, messages addressed
to the agent and not yet read are collected, and the aggregate is sorted
ascending again. -/
def getUnread (threads : List (String × List Message)) (agentName : String) : List Message :=
  let unread := threads.flatMap fun t =>
    (listThread t.2).filter fun m => m.toAgentId = agentName && m.status ≠ MessageStatus.read
  List.insertionSort msgAscLe unread

/-! ## Board storage (storage/board.ts)

toMarkdown / fromMarkdown work on the character list of the file
content.  The parse regex ^---\n([^]*?)\n---\n\n?([^]*)$ anchors on the
leading delimiter and takes the shortest first group, i.e. it cuts at
the first occurrence of newline-dashes-newline; splitFirstSep models
both that search and String.prototype.indexOf(":") on a frontmatter
line.
-/

/-- Split at the first occurrence of sep: the part before it and the
part after it. -/
def splitFirstSep (sep : List Char) : List Char → Option (List Char × List Char)
  | [] => if sep.isPrefixOf ([] : List Char) then some ([], []) else none
  | c :: rest =>
    if sep.isPrefixOf (c :: rest) then some ([], (c :: rest).drop sep.length)
    else
      match splitFirstSep sep rest with
      | some (pre, post) => some (c :: pre, post)
      | none => none

/-- String.prototype.split("\n"). -/
def splitNl : List Char → List (List Char)
  | [] => [[]]
  | c :: rest =>
    if c = '\n' then [] :: splitNl rest
    else
      match splitNl rest with
      | l :: ls => (c :: l) :: ls
      | [] => [[c]]

/-- The frontmatter terminator searched for by the non-greedy group. -/
def fmSep : List Char := ['\n', '-', '-', '-', '\n']

/-- The `\n?` group right after the terminator: one optional blank line. -/
def dropLeadingNl : List Char → List Char
  | '\n' :: r => r
  | r => r

/-- One frontmatter line folded into the field map: split at the first
colon, trim key and value, store; a colon-free line is skipped. -/
def boardFieldStep (fs : List (String × List Char)) (line : List Char) :
    List (String × List Char) :=
  match splitFirstSep [':'] line with
  | none => fs
  | some (k, v) => upsert (String.mk (trimL k)) (trimL v) fs

/-- The frontmatter block that toMarkdown writes between the dashes. -/
def fmLines (idd tyd aud sud cad : List Char) : List Char :=
  "id: ".data ++ (idd ++ ("\ntype: ".data ++ (tyd ++ ("\nauthor: ".data ++
    (aud ++ ("\nsummary: ".data ++ (sud ++ ("\ncreatedAt: ".data ++ cad))))))))

/-- BoardStorage.toMarkdown: frontmatter block, blank line, body, newline. -/
def toMarkdownData (i : BoardItem) : List Char :=
  "---\nid: ".data ++ i.id.data ++ "\ntype: ".data ++ i.type.data ++
  "\nauthor: ".data ++ i.author.data ++ "\nsummary: ".data ++ i.summary.data ++
  "\ncreatedAt: ".data ++ i.createdAt.data ++ "\n---\n\n".data ++ i.body.data ++ "\n".data

/-- BoardStorage.fromMarkdown.  An empty first capture group is falsy in
the source's !match?.[1] test, hence the fm = [] rejection; a missing
colon skips the line; keys and values are trimmed; later duplicate keys
overwrite earlier ones; missing fields default to the empty string. -/
def fromMarkdownData (content : List Char) (filePath : String) : Option BoardItem :=
  if "---\n".data.isPrefixOf content then
    match splitFirstSep fmSep (content.drop 4) with
    | none => none
    | some (fm, rest) =>
      if fm = [] then none
      else
        let rest' := dropLeadingNl rest
        let body := trimEndL rest'
        let fields := (splitNl fm).foldl boardFieldStep []
        some {
          id := ⟨(lookupA fields "id").getD []⟩
          type := ⟨(lookupA fields "type").getD []⟩
          author := ⟨(lookupA fields "author").getD []⟩
          summary := ⟨(lookupA fields "summary").getD []⟩
          body := ⟨body⟩
          createdAt := ⟨(lookupA fields "createdAt").getD []⟩
          path := filePath }
  else none

/-- One type folder of the board directory: id to file content. -/
abbrev BoardStore := List (String × List Char)

def boardSave (store : BoardStore) (item : BoardItem) : BoardStore :=
  upsert item.id (toMarkdownData item) store

def boardGet (store : BoardStore) (id : String) (filePath : String) : Option BoardItem :=
  match lookupA store id with
  | some content => fromMarkdownData content filePath
  | none => none

/-! ## JSON-file storages (storage/tasks.ts, storage/agents.ts,
storage/messages.ts, storage/org.ts)

save serializes the record with JSON.stringify into tasks/<id>.json
(resp. agents/<name>/config.json, messages/<threadId>/<id>.json,
org.json) via tmp-write-then-rename, and get JSON.parses the same file;
the directory is an association list and serialization round-trips the
record, so save is upsert and get is lookup.
-/

def taskSave (store : List (String × TaskState)) (t : TaskState) :
    List (String × TaskState) :=
  upsert t.id t store

def taskGet (store : List (String × TaskState)) (id : String) : Option TaskState :=
  lookupA store id

def agentSave (store : List (String × AgentConfig)) (a : AgentConfig) :
    List (String × AgentConfig) :=
  upsert a.name a store

def agentGet (store : List (String × AgentConfig)) (name : String) : Option AgentConfig :=
  lookupA store name

def messageSave (store : List (String × List (String × Message))) (m : Message) :
    List (String × List (String × Message)) :=
  upsert m.threadId (upsert m.id m ((lookupA store m.threadId).getD [])) store

def messageGet (store : List (String × List (String × Message)))
    (messageId threadId : String) : Option Message :=
  match lookupA store threadId with
  | some thread => lookupA thread messageId
  | none => none

def orgSave (_store : Option OrgTree) (tree : OrgTree) : Option OrgTree :=
  some tree

def orgGet (store : Option OrgTree) : OrgTree :=
  store.getD { roots := [] }

/-! ## Orchestration engine (engine.ts)

EngineState carries the stored entities (the workspace directory) plus
the in-memory running-agent registry and concurrency limit.  The
registry is a Map keyed by agent name; only its key set matters here.
System-prompt assembly and the MCP server construction in spawnAgent are
pure reads and are outside this embedding.
-/

def DEFAULT_CONCURRENCY_LIMIT : Nat := 3

structure EngineState where
  agents : List (String × AgentConfig)
  tasks : List (String × TaskState)
  mailboxes : Mailboxes
  runningAgents : List String
  concurrencyLimit : Nat
deriving DecidableEq, Repr

/-- A freshly constructed engine over an empty workspace. -/
def emptyEngineState : EngineState :=
  { agents := [], tasks := [], mailboxes := [], runningAgents := [],
    concurrencyLimit := DEFAULT_CONCURRENCY_LIMIT }

/-- Map.set on the running-agent registry (keys are unique). -/
def setRunning (l : List String) (name : String) : List String :=
  if name ∈ l then l else l ++ [name]

/-- The agent record written by spawnAgent before launch. -/
def spawnedAgent (agentConfig : AgentConfig) (taskId nowIso : String) : AgentConfig :=
  { agentConfig with
    status := AgentStatus.running
    currentTaskId := some taskId
    updatedAt := nowIso }

/-- The task record written by spawnAgent before launch. -/
def spawnedTask (task : TaskState) (nowIso : String) : TaskState :=
  { task with
    status := TaskStatus.running
    startedAt := some nowIso }

/-- OrchestrationEngine.spawnAgent.  The concurrency guard throws before
any write, so the error branch pairs the message with the caller's state
unchanged; the ok branch returns task.id. -/
def spawnAgent (st : EngineState) (agentConfig : AgentConfig) (task : TaskState)
    (nowIso : String) : Except String String × EngineState :=
  if st.concurrencyLimit ≤ st.runningAgents.length then
    (Except.error ("[Engine] Concurrency limit reached (" ++
      toString st.concurrencyLimit ++ "). Cannot spawn agent " ++
      agentConfig.name ++ "."), st)
  else
    let agentConfig' := spawnedAgent agentConfig task.id nowIso
    let task' := spawnedTask task nowIso
    let st := { st with
      agents := upsert agentConfig'.name agentConfig' st.agents
      tasks := upsert task'.id task' st.tasks }
    let st := { st with runningAgents := setRunning st.runningAgents agentConfig'.name }
    (Except.ok task'.id, st)

/-- The task record written by completeAgent: terminal status, result,
completion time, and each telemetry field only when the caller passed it. -/
def completedTask (task : TaskState) (status : TerminalStatus) (result : Option String)
    (costUsd durationMs numTurns : Option Rat) (nowIso : String) : TaskState :=
  { task with
    status := status.toTaskStatus
    result := result
    completedAt := some nowIso
    costUsd := match costUsd with | some c => some c | none => task.costUsd
    durationMs := match durationMs with | some d => some d | none => task.durationMs
    numTurns := match numTurns with | some n => some n | none => task.numTurns }

/-- The agent record reset written by completeAgent. -/
def idleAgent (agent : AgentConfig) (nowIso : String) : AgentConfig :=
  { agent with
    status := AgentStatus.idle
    currentTaskId := none
    updatedAt := nowIso }

/-- OrchestrationEngine.completeAgent.  A missing task skips the whole
task-side block (including delegation); a missing agent skips the agent
reset; the registry entry is deleted unconditionally. -/
def completeAgent (st : EngineState) (agentName taskId : String)
    (status : TerminalStatus) (result : Option String)
    (costUsd durationMs numTurns : Option Rat) (nowIso : String) : EngineState :=
  let st1 :=
    match lookupA st.tasks taskId with
    | none => st
    | some task =>
      let task' := completedTask task status result costUsd durationMs numTurns nowIso
      let stT := { st with tasks := upsert task'.id task' st.tasks }
      match task'.parentTaskId, task'.delegatorId with
      | some parentTaskId, some _ =>
        match lookupA stT.tasks parentTaskId with
        | some parentTask =>
          { stT with mailboxes := (handleChildCompletion stT.mailboxes taskId result
              status.toTaskStatus.str parentTaskId parentTask.assigneeId nowIso) }
        | none => stT
      | _, _ => stT
  let st2 :=
    match lookupA st1.agents agentName with
    | none => st1
    | some agent =>
      let agent' := idleAgent agent nowIso
      { st1 with agents := upsert agent'.name agent' st1.agents }
  { st2 with runningAgents := st2.runningAgents.erase agentName }

/-- The record written by finish_task: terminal status, the mandatory
result string, and the completion time. -/
def finishedTask (task : TaskState) (status : TerminalStatus) (result : String)
    (nowIso : String) : TaskState :=
  { task with
    status := status.toTaskStatus
    result := some result
    completedAt := some nowIso }

/-- The finish_task MCP tool handler (finish-task.ts): the task keyed by
the caller's taskId is finished with the given status and a mandatory
result string; delegation delivery mirrors completeAgent; the agent
record and registry are untouched. -/
def finishTask (st : EngineState) (depsTaskId : String) (status : TerminalStatus)
    (result : String) (nowIso : String) : EngineState × String :=
  match lookupA st.tasks depsTaskId with
  | none => (st, "Unknown task: " ++ depsTaskId)
  | some task =>
    let task' := finishedTask task status result nowIso
    let stT := { st with tasks := upsert task'.id task' st.tasks }
    let stD :=
      match task'.parentTaskId, task'.delegatorId with
      | some parentTaskId, some _ =>
        match lookupA stT.tasks parentTaskId with
        | some parentTask =>
          { stT with mailboxes := (handleChildCompletion stT.mailboxes depsTaskId (some result)
              status.toTaskStatus.str parentTaskId parentTask.assigneeId nowIso) }
        | none => stT
      | _, _ => stT
    (stD, "Task " ++ depsTaskId ++ " marked as " ++ status.toTaskStatus.str ++ ".")

/-! ## Operation sequences over the engine -/

inductive EngineOp where
  | spawn (agentConfig : AgentConfig) (task : TaskState) (nowIso : String)
  | complete (agentName taskId : String) (status : TerminalStatus)
      (result : Option String) (costUsd durationMs numTurns : Option Rat) (nowIso : String)
  | finish (depsTaskId : String) (status : TerminalStatus) (result : String) (nowIso : String)

def applyOp (st : EngineState) : EngineOp → EngineState
  | .spawn cfg task nowIso => (spawnAgent st cfg task nowIso).2
  | .complete agentName taskId status result c d n nowIso =>
      completeAgent st agentName taskId status result c d n nowIso
  | .finish depsTaskId status result nowIso => (finishTask st depsTaskId status result nowIso).1

def applyOps (st : EngineState) (ops : List EngineOp) : EngineState :=
  ops.foldl applyOp st

/-- The task record an operation writes to (the task it targets). -/
def EngineOp.taskTarget : EngineOp → String
  | .spawn _ task _ => task.id
  | .complete _ taskId _ _ _ _ _ _ => taskId
  | .finish depsTaskId _ _ _ => depsTaskId

/-- Key consistency of the task directory: the file tasks/<id>.json holds
the record whose id field is <id>, which is how TaskStorage.save writes it. -/
def tasksWf (st : EngineState) : Prop :=
  ∀ k tk, lookupA st.tasks k = some tk → tk.id = k

/-! ## Sample entities for concrete witnesses -/

def sampleAgent : AgentConfig :=
  { name := "eng"
    displayName := "Eng"
    role := "Engineer"
    department := "Engineering"
    level := AgentLevel.ic
    personality := "Hardworking"
    status := AgentStatus.idle
    currentTaskId := none
    avatarColor := none
    createdAt := "2024-06-15T10:30:45.123Z"
    updatedAt := "2024-06-15T10:30:45.123Z" }

def sampleTask : TaskState :=
  { id := "t1"
    parentTaskId := none
    assigneeId := "eng"
    delegatorId := none
    prompt := "Do something"
    context := none
    priority := 0
    status := TaskStatus.running
    tags := []
    result := none
    costUsd := none
    durationMs := none
    numTurns := none
    createdAt := "2024-06-15T10:30:45.123Z"
    startedAt := none
    completedAt := none }

def completedSampleTask : TaskState :=
  { sampleTask with
    status := TaskStatus.completed
    result := some "done"
    completedAt := some "2024-06-15T11:00:00.000Z" }

def stLimit : EngineState :=
  { emptyEngineState with runningAgents := ["a", "b", "c"] }

def stTerminal : EngineState :=
  { emptyEngineState with tasks := [("t1", completedSampleTask)] }

def stNoTask : EngineState :=
  { emptyEngineState with agents := [("eng", sampleAgent)] }

def stNoAgent : EngineState :=
  { emptyEngineState with tasks := [("t1", sampleTask)] }

/-! ## splitFirstSep lemma kit -/

/-- Needle occurrence test used to state substring facts. -/
def containsSub (l needle : List Char) : Bool :=
  (splitFirstSep needle l).isSome

/-- Early-mismatch test: the needle already disagrees with xs inside xs,
so it cannot match at this offset whatever follows xs. -/
def mismatchEarly : List Char → List Char → Bool
  | [], _ => false
  | _ :: _, [] => false
  | s :: ss, x :: xs => (s != x) || mismatchEarly ss xs

/-- Every suffix of the segment mismatches the needle within the segment:
scanning the segment can never find the needle, even across its end. -/
def segSafe (sep : List Char) : List Char → Bool
  | [] => true
  | c :: rest => mismatchEarly sep (c :: rest) && segSafe sep rest

/-! ## Claim C7 -/

def c7task : TaskState :=
  { id := "t7", parentTaskId := none, assigneeId := "alice", delegatorId := none,
    prompt := "do the thing", context := none, priority := 1, status := TaskStatus.running,
    tags := [], result := none, costUsd := none, durationMs := none, numTurns := none,
    createdAt := "2024-05-01T10:00:00.000Z", startedAt := some "2024-05-01T10:00:01.000Z",
    completedAt := none }

def c7agent : AgentConfig :=
  { name := "alice", displayName := "Alice", role := "Engineer", department := "Engineering",
    level := AgentLevel.ic, personality := "calm", status := AgentStatus.idle,
    currentTaskId := none, avatarColor := none,
    createdAt := "2024-05-01T09:00:00.000Z", updatedAt := "2024-05-01T09:00:00.000Z" }

def c7msg : Message :=
  { id := "m7", fromAgentId := none, toAgentId := "alice", threadId := "thread-1",
    subject := none, body := "hello", type := MessageType.direct,
    status := MessageStatus.pending, createdAt := "2024-05-01T10:00:00.000Z", readAt := none }

def c7tree : OrgTree := { roots := [OrgNode.mk "alice" none [] 0] }

def c7item : BoardItem :=
  { id := "b7", type := "update", author := "alice", summary := "deploy: phase 1: done",
    body := "Line one.\nnotes: more", createdAt := "2024-05-01T10:00:00.000Z",
    path := "board/updates/b7.md" }

def c7bad : BoardItem :=
  { id := "b8", type := "update", author := "alice", summary := " padded",
    body := "x", createdAt := "2024-05-01T10:00:00.000Z", path := "board/updates/b8.md" }

def childSampleTask : TaskState :=
  { sampleTask with id := "child1", parentTaskId := some "parent1", delegatorId := some "ceo" }

def parentSampleTask : TaskState :=
  { sampleTask with id := "parent1", assigneeId := "ceo" }

def stDelegation : EngineState :=
  { emptyEngineState with
    tasks := [("child1", childSampleTask), ("parent1", parentSampleTask)] }

def taskA : TaskState := { sampleTask with id := "a", createdAt := "2024-06-15T10:00:00.000Z" }

def taskB : TaskState := { sampleTask with id := "b", createdAt := "2024-06-16T10:00:00.000Z" }

def taskC : TaskState := { sampleTask with id := "c", createdAt := "2024-06-15T10:00:00.000Z" }

/-! ## Org tree lemma kit -/

/-- The in-place parent.children.push(node) on a found node. -/
def appendChild (n : OrgNode) (mkChild : Nat → OrgNode) : OrgNode :=
  match n with
  | .mk a p c pos => .mk a p (c ++ [mkChild c.length]) pos

/-- The reparented orphans as they are pushed one by one: parent pointer
rewritten, positions assigned from base upward, each child's own children
untouched. -/
def reRoot (orphans : List OrgNode) (base : Nat) (pname : Option String) : List OrgNode :=
  match orphans with
  | [] => []
  | c :: rest => setMeta c pname base :: reRoot rest (base + 1) pname

def c5x : OrgNode := OrgNode.mk "x" (some "mid") [] 0

def c5y : OrgNode := OrgNode.mk "y" (some "mid") [] 1

def c5mid : OrgNode := OrgNode.mk "mid" (some "ceo") [c5x, c5y] 0

def c5ceo : OrgNode := OrgNode.mk "ceo" none [c5mid] 0

def c5tree : OrgTree := { roots := [c5ceo] }

theorem lookupA_upsert_self {α : Type} (k : String) (v : α) (l : List (String × α)) :
    lookupA (upsert k v l) k = some v := by
  induction l with
  | nil => simp [upsert, lookupA]
  | cons p rest ih =>
    obtain ⟨k', v'⟩ := p
    by_cases h : k' = k
    · simp [upsert, h, lookupA]
    · simp [upsert, h, lookupA, ih]

theorem lookupA_upsert_ne {α : Type} (k q : String) (v : α) (l : List (String × α))
    (h : k ≠ q) : lookupA (upsert k v l) q = lookupA l q := by
  induction l with
  | nil => simp [upsert, lookupA, h]
  | cons p rest ih =>
    obtain ⟨k', v'⟩ := p
    by_cases hk : k' = k
    · subst hk
      simp [upsert, lookupA, h, ih]
    · simp [upsert, hk, lookupA, ih]

theorem length_upsert_of_not_found {α : Type} (k : String) (v : α) (l : List (String × α))
    (h : lookupA l k = none) : (upsert k v l).length = l.length + 1 := by
  induction l with
  | nil => simp [upsert]
  | cons p rest ih =>
    obtain ⟨k', v'⟩ := p
    by_cases hk : k' = k
    · simp [lookupA, hk] at h
    · simp only [lookupA, hk, if_neg hk] at h
      simp [upsert, hk, ih h]

theorem mem_upsert_of_ne {α : Type} (k : String) (v : α) (l : List (String × α))
    (f : String) (c : α) (hmem : (f, c) ∈ l) (hne : f ≠ k) : (f, c) ∈ upsert k v l := by
  induction l with
  | nil => simp at hmem
  | cons p rest ih =>
    obtain ⟨k', v'⟩ := p
    rcases List.mem_cons.mp hmem with heq | htl
    · obtain ⟨h1, h2⟩ := Prod.mk.injEq .. ▸ heq
      subst h1; subst h2
      simp [upsert, hne]
    · by_cases hk : k' = k
      · simp [upsert, hk]
        right; exact htl
      · simp only [upsert, if_neg hk]
        exact List.mem_cons.mpr (Or.inr (ih htl))

theorem tasksWf_upsert {l : List (String × TaskState)} {k : String} {v : TaskState}
    (h : ∀ q tq, lookupA l q = some tq → tq.id = q) (hv : v.id = k) :
    ∀ q tq, lookupA (upsert k v l) q = some tq → tq.id = q := by
  intro q tq hq
  by_cases hkq : k = q
  · subst hkq
    rw [lookupA_upsert_self] at hq
    cases hq
    exact hv
  · rw [lookupA_upsert_ne _ _ _ _ hkq] at hq
    exact h q tq hq

theorem completeAgent_tasks (st : EngineState) (agentName taskId : String)
    (status : TerminalStatus) (result : Option String)
    (costUsd durationMs numTurns : Option Rat) (nowIso : String) :
    (completeAgent st agentName taskId status result costUsd durationMs numTurns nowIso).tasks =
      match lookupA st.tasks taskId with
      | none => st.tasks
      | some task =>
          upsert (completedTask task status result costUsd durationMs numTurns nowIso).id
            (completedTask task status result costUsd durationMs numTurns nowIso) st.tasks := by
  unfold completeAgent
  cases h : lookupA st.tasks taskId with
  | none =>
    simp only [h]
    cases h2 : lookupA st.agents agentName <;> simp [h2]
  | some task =>
    simp only [h]
    rcases hp : (completedTask task status result costUsd durationMs numTurns nowIso).parentTaskId with _ | pt <;>
      rcases hd : (completedTask task status result costUsd durationMs numTurns nowIso).delegatorId with _ | d <;>
        simp only [hp, hd] <;>
        first
        | (cases h2 : lookupA st.agents agentName <;> simp [h2])
        | (cases h3 : lookupA (upsert (completedTask task status result costUsd durationMs numTurns nowIso).id
              (completedTask task status result costUsd durationMs numTurns nowIso) st.tasks) pt <;>
            cases h2 : lookupA st.agents agentName <;> simp [h2, h3])

theorem finishTask_tasks (st : EngineState) (depsTaskId : String)
    (status : TerminalStatus) (result : String) (nowIso : String) :
    (finishTask st depsTaskId status result nowIso).1.tasks =
      match lookupA st.tasks depsTaskId with
      | none => st.tasks
      | some task =>
          upsert (finishedTask task status result nowIso).id
            (finishedTask task status result nowIso) st.tasks := by
  unfold finishTask
  cases h : lookupA st.tasks depsTaskId with
  | none => simp [h]
  | some task =>
    simp only [h]
    rcases hp : (finishedTask task status result nowIso).parentTaskId with _ | pt <;>
      rcases hd : (finishedTask task status result nowIso).delegatorId with _ | d <;>
        simp only [hp, hd] <;>
        first
        | simp
        | (cases h3 : lookupA (upsert (finishedTask task status result nowIso).id
              (finishedTask task status result nowIso) st.tasks) pt <;> simp [h3])

theorem applyOp_other_task (st : EngineState) (op : EngineOp) (t : String)
    (hwf : tasksWf st) (hne : op.taskTarget ≠ t) :
    lookupA (applyOp st op).tasks t = lookupA st.tasks t ∧ tasksWf (applyOp st op) := by
  cases op with
  | spawn cfg task nowIso =>
    simp only [applyOp, spawnAgent, EngineOp.taskTarget] at hne ⊢
    by_cases hlim : st.concurrencyLimit ≤ st.runningAgents.length
    · rw [if_pos hlim]
      exact ⟨rfl, hwf⟩
    · rw [if_neg hlim]
      refine ⟨?_, ?_⟩
      · show lookupA (upsert (spawnedTask task nowIso).id (spawnedTask task nowIso) st.tasks) t =
          lookupA st.tasks t
        have hne2 : (spawnedTask task nowIso).id ≠ t := hne
        exact lookupA_upsert_ne _ _ _ _ hne2
      · intro q tq hq
        have hq2 : lookupA (upsert (spawnedTask task nowIso).id (spawnedTask task nowIso)
            st.tasks) q = some tq := hq
        exact tasksWf_upsert hwf rfl q tq hq2
  | complete agentName taskId status result c d n nowIso =>
    simp only [applyOp, EngineOp.taskTarget] at hne ⊢
    have htasks := completeAgent_tasks st agentName taskId status result c d n nowIso
    cases h : lookupA st.tasks taskId with
    | none =>
      rw [h] at htasks
      have htasks2 : (completeAgent st agentName taskId status result c d n nowIso).tasks =
          st.tasks := htasks
      exact ⟨by rw [htasks2], fun q tq hq => hwf q tq (by rwa [htasks2] at hq)⟩
    | some task =>
      rw [h] at htasks
      have htasks2 : (completeAgent st agentName taskId status result c d n nowIso).tasks =
          upsert (completedTask task status result c d n nowIso).id
            (completedTask task status result c d n nowIso) st.tasks := htasks
      have hid : (completedTask task status result c d n nowIso).id = taskId := by
        have := hwf taskId task h
        simp [completedTask, this]
      refine ⟨?_, ?_⟩
      · rw [htasks2, hid]
        exact lookupA_upsert_ne _ _ _ _ hne
      · intro q tq hq
        rw [htasks2, hid] at hq
        exact tasksWf_upsert hwf hid q tq hq
  | finish depsTaskId status result nowIso =>
    simp only [applyOp, EngineOp.taskTarget] at hne ⊢
    have htasks := finishTask_tasks st depsTaskId status result nowIso
    cases h : lookupA st.tasks depsTaskId with
    | none =>
      rw [h] at htasks
      have htasks2 : (finishTask st depsTaskId status result nowIso).1.tasks =
          st.tasks := htasks
      exact ⟨by rw [htasks2], fun q tq hq => hwf q tq (by rwa [htasks2] at hq)⟩
    | some task =>
      rw [h] at htasks
      have htasks2 : (finishTask st depsTaskId status result nowIso).1.tasks =
          upsert (finishedTask task status result nowIso).id
            (finishedTask task status result nowIso) st.tasks := htasks
      have hid0 := hwf depsTaskId task h
      have hid : (finishedTask task status result nowIso).id = depsTaskId := by
        simp [finishedTask, hid0]
      refine ⟨?_, ?_⟩
      · rw [htasks2, hid]
        exact lookupA_upsert_ne _ _ _ _ hne
      · intro q tq hq
        rw [htasks2, hid] at hq
        exact tasksWf_upsert hwf hid q tq hq

theorem completeAgent_agents (st : EngineState) (agentName taskId : String)
    (status : TerminalStatus) (result : Option String)
    (costUsd durationMs numTurns : Option Rat) (nowIso : String) :
    (completeAgent st agentName taskId status result costUsd durationMs numTurns nowIso).agents =
      match lookupA st.agents agentName with
      | none => st.agents
      | some agent =>
          upsert (idleAgent agent nowIso).name (idleAgent agent nowIso) st.agents := by
  unfold completeAgent
  cases h : lookupA st.tasks taskId with
  | none =>
    simp only [h]
    cases h2 : lookupA st.agents agentName <;> simp [h2]
  | some task =>
    simp only [h]
    rcases hp : (completedTask task status result costUsd durationMs numTurns nowIso).parentTaskId with _ | pt <;>
      rcases hd : (completedTask task status result costUsd durationMs numTurns nowIso).delegatorId with _ | d <;>
        simp only [hp, hd] <;>
        first
        | (cases h3 : lookupA (upsert (completedTask task status result costUsd durationMs numTurns nowIso).id
              (completedTask task status result costUsd durationMs numTurns nowIso) st.tasks) pt <;>
            cases h2 : lookupA st.agents agentName <;> simp [h2, h3])
        | (cases h2 : lookupA st.agents agentName <;> simp [h2])

/-! ## Claim C1 -/

/-- C1: whenever the running-agent registry has reached the configured
concurrency limit (default DEFAULT_CONCURRENCY_LIMIT = 3), spawnAgent
fails outright with an error and returns the engine state unchanged: no
agent record, task record, mailbox, or registry entry is touched. -/
theorem spawnAgent_rejects_at_limit (st : EngineState) (agentConfig : AgentConfig)
    (task : TaskState) (nowIso : String)
    (h : st.concurrencyLimit ≤ st.runningAgents.length) :
    (∃ msg, spawnAgent st agentConfig task nowIso = (Except.error msg, st)) ∧
    DEFAULT_CONCURRENCY_LIMIT = 3 ∧
    emptyEngineState.concurrencyLimit = DEFAULT_CONCURRENCY_LIMIT := by
  refine ⟨⟨"[Engine] Concurrency limit reached (" ++ toString st.concurrencyLimit ++
    "). Cannot spawn agent " ++ agentConfig.name ++ ".", ?_⟩, rfl, rfl⟩
  unfold spawnAgent
  rw [if_pos h]

/-- Witness for C1: a concrete engine with three running agents and the
default limit rejects a spawn and leaves the state intact. -/
theorem spawnAgent_rejects_at_limit_witness :
    (∃ msg, spawnAgent stLimit sampleAgent sampleTask "2024-06-15T12:00:00.000Z" =
      (Except.error msg, stLimit)) ∧
    DEFAULT_CONCURRENCY_LIMIT = 3 ∧
    emptyEngineState.concurrencyLimit = DEFAULT_CONCURRENCY_LIMIT :=
  spawnAgent_rejects_at_limit stLimit sampleAgent sampleTask "2024-06-15T12:00:00.000Z"
    (by decide)

/-! ## Claim C2 -/

/-- C2 (amended): the engine does not guard terminal states; what holds
is the frame property that a terminal task's stored record survives any
sequence of spawnAgent / completeAgent / finish_task operations none of
which targets that task id again.  A repeated completeAgent or
finish_task on the same id, or a spawnAgent handed that task record,
overwrites the status unconditionally (see the counterexample). -/
theorem terminal_task_frame (st : EngineState) (ops : List EngineOp) (t : String)
    (tk : TaskState) (hwf : tasksWf st) (hlook : lookupA st.tasks t = some tk)
    (hterm : tk.status.isTerminal = true)
    (hops : ∀ op ∈ ops, op.taskTarget ≠ t) :
    lookupA (applyOps st ops).tasks t = some tk := by
  induction ops generalizing st with
  | nil => exact hlook
  | cons op rest ih =>
    have h1 := applyOp_other_task st op t hwf (hops op (List.mem_cons_self op rest))
    exact ih (applyOp st op) h1.2 (h1.1.trans hlook)
      (fun o ho => hops o (List.mem_cons_of_mem op ho))

theorem stTerminal_wf : tasksWf stTerminal := by
  intro k tk h
  simp only [stTerminal, emptyEngineState, lookupA] at h
  split_ifs at h with hk
  cases h
  rw [← hk]
  rfl

/-- Witness for C2: a concrete terminal task survives a spawn of a
different task and a completion of a different task id. -/
theorem terminal_task_frame_witness :
    lookupA (applyOps stTerminal
      [EngineOp.spawn sampleAgent { sampleTask with id := "t2" } "2024-06-15T12:00:00.000Z",
       EngineOp.complete "eng" "t2" TerminalStatus.completed (some "ok") none none none
         "2024-06-15T12:05:00.000Z"]).tasks "t1" = some completedSampleTask :=
  terminal_task_frame stTerminal
    [EngineOp.spawn sampleAgent { sampleTask with id := "t2" } "2024-06-15T12:00:00.000Z",
     EngineOp.complete "eng" "t2" TerminalStatus.completed (some "ok") none none none
       "2024-06-15T12:05:00.000Z"] "t1" completedSampleTask
    stTerminal_wf (by decide) (by decide)
    (by intro op hop; fin_cases hop <;> decide)

/-- C2 counterexample: the claim as stated is false — completeAgent on a
task already in the terminal status completed is itself a reachable
engine operation and moves the task to failed. -/
theorem terminal_task_escapes_counterexample :
    (lookupA stTerminal.tasks "t1").map TaskState.status = some TaskStatus.completed ∧
    TaskStatus.isTerminal TaskStatus.completed = true ∧
    (lookupA (applyOps stTerminal
      [EngineOp.complete "eng" "t1" TerminalStatus.failed none none none none
        "2024-06-15T12:00:00.000Z"]).tasks "t1").map TaskState.status =
      some TaskStatus.failed ∧
    TaskStatus.failed ≠ TaskStatus.completed := by
  refine ⟨rfl, rfl, ?_, by decide⟩
  decide

/-! ## Claim C9 -/

/-- C9: completeAgent silently skips a missing side instead of failing.
If the task record is absent, the task store is untouched but a present
agent record is still reset to idle with a cleared currentTaskId; if the
agent record is absent, the agent store is untouched but a present task
record still receives the terminal status.  completeAgent is a total
function into EngineState, so neither absence can raise an error. -/
theorem completeAgent_skips_missing_side (st : EngineState) (agentName taskId : String)
    (status : TerminalStatus) (result : Option String) (c d n : Option Rat)
    (nowIso : String) :
    (lookupA st.tasks taskId = none →
      (completeAgent st agentName taskId status result c d n nowIso).tasks = st.tasks ∧
      ∀ agent, lookupA st.agents agentName = some agent → agent.name = agentName →
        lookupA (completeAgent st agentName taskId status result c d n nowIso).agents
          agentName = some (idleAgent agent nowIso)) ∧
    (lookupA st.agents agentName = none →
      (completeAgent st agentName taskId status result c d n nowIso).agents = st.agents ∧
      ∀ task, lookupA st.tasks taskId = some task → task.id = taskId →
        lookupA (completeAgent st agentName taskId status result c d n nowIso).tasks
          taskId = some (completedTask task status result c d n nowIso)) := by
  constructor
  · intro htn
    have ht := completeAgent_tasks st agentName taskId status result c d n nowIso
    rw [htn] at ht
    have ht2 : (completeAgent st agentName taskId status result c d n nowIso).tasks =
      st.tasks := ht
    refine ⟨ht2, ?_⟩
    intro agent hag hname
    have ha := completeAgent_agents st agentName taskId status result c d n nowIso
    rw [hag] at ha
    have ha2 : (completeAgent st agentName taskId status result c d n nowIso).agents =
      upsert (idleAgent agent nowIso).name (idleAgent agent nowIso) st.agents := ha
    have hk : (idleAgent agent nowIso).name = agentName := hname
    rw [ha2, hk]
    exact lookupA_upsert_self _ _ _
  · intro han
    have ha := completeAgent_agents st agentName taskId status result c d n nowIso
    rw [han] at ha
    have ha2 : (completeAgent st agentName taskId status result c d n nowIso).agents =
      st.agents := ha
    refine ⟨ha2, ?_⟩
    intro task hlook hid
    have ht := completeAgent_tasks st agentName taskId status result c d n nowIso
    rw [hlook] at ht
    have ht2 : (completeAgent st agentName taskId status result c d n nowIso).tasks =
      upsert (completedTask task status result c d n nowIso).id
        (completedTask task status result c d n nowIso) st.tasks := ht
    have hk : (completedTask task status result c d n nowIso).id = taskId := hid
    rw [ht2, hk]
    exact lookupA_upsert_self _ _ _

/-- Witness for C9: with the task record missing, the agent is still
reset; with the agent record missing, the task is still completed. -/
theorem completeAgent_skips_missing_side_witness :
    ((completeAgent stNoTask "eng" "t9" TerminalStatus.completed none none none none
        "2024-06-15T12:00:00.000Z").tasks = stNoTask.tasks ∧
      lookupA (completeAgent stNoTask "eng" "t9" TerminalStatus.completed none none none none
        "2024-06-15T12:00:00.000Z").agents "eng" =
        some (idleAgent sampleAgent "2024-06-15T12:00:00.000Z")) ∧
    ((completeAgent stNoAgent "eng" "t1" TerminalStatus.completed (some "done") none none none
        "2024-06-15T12:00:00.000Z").agents = stNoAgent.agents ∧
      lookupA (completeAgent stNoAgent "eng" "t1" TerminalStatus.completed (some "done") none
        none none "2024-06-15T12:00:00.000Z").tasks "t1" =
        some (completedTask sampleTask TerminalStatus.completed (some "done") none none none
          "2024-06-15T12:00:00.000Z")) :=
  have h1 := completeAgent_skips_missing_side stNoTask "eng" "t9" TerminalStatus.completed
    none none none none "2024-06-15T12:00:00.000Z"
  have h2 := completeAgent_skips_missing_side stNoAgent "eng" "t1" TerminalStatus.completed
    (some "done") none none none "2024-06-15T12:00:00.000Z"
  ⟨⟨(h1.1 rfl).1, (h1.1 rfl).2 sampleAgent rfl rfl⟩,
   ⟨(h2.2 rfl).1, (h2.2 rfl).2 sampleTask rfl rfl⟩⟩

theorem splitFirstSep_sound (sep l pre post : List Char)
    (h : splitFirstSep sep l = some (pre, post)) : l = pre ++ sep ++ post := by
  induction l generalizing pre with
  | nil =>
    unfold splitFirstSep at h
    by_cases hp : sep.isPrefixOf ([] : List Char)
    · rw [if_pos hp] at h
      cases h
      have : sep = [] := List.prefix_nil.mp (List.isPrefixOf_iff_prefix.mp hp)
      simp [this]
    · rw [if_neg hp] at h
      cases h
  | cons c rest ih =>
    unfold splitFirstSep at h
    by_cases hp : sep.isPrefixOf (c :: rest)
    · rw [if_pos hp] at h
      cases h
      have hpre := List.isPrefixOf_iff_prefix.mp hp
      obtain ⟨t, ht⟩ := hpre
      rw [← ht]
      simp
    · rw [if_neg hp] at h
      cases h2 : splitFirstSep sep rest with
      | none => rw [h2] at h; cases h
      | some pq =>
        obtain ⟨pre', post'⟩ := pq
        rw [h2] at h
        cases h
        have := ih pre' h2
        simp [this]

theorem splitFirstSep_self_append (sep post : List Char) (hne : sep ≠ []) :
    splitFirstSep sep (sep ++ post) = some ([], post) := by
  cases sep with
  | nil => exact absurd rfl hne
  | cons s ss =>
    have hp : (s :: ss).isPrefixOf (s :: (ss ++ post)) = true := by
      rw [← List.cons_append]
      exact List.isPrefixOf_iff_prefix.mpr (List.prefix_append _ _)
    rw [List.cons_append]
    simp only [splitFirstSep]
    rw [if_pos hp, ← List.cons_append, List.drop_left]

theorem splitFirstSep_isSome_of_occurs (sep pre post : List Char) (hne : sep ≠ []) :
    (splitFirstSep sep (pre ++ sep ++ post)).isSome = true := by
  induction pre with
  | nil =>
    simp only [List.nil_append]
    rw [splitFirstSep_self_append sep post hne]
    rfl
  | cons c pre ih =>
    have hcons : (c :: pre) ++ sep ++ post = c :: (pre ++ sep ++ post) := by simp
    rw [hcons]
    unfold splitFirstSep
    by_cases hp : sep.isPrefixOf (c :: (pre ++ sep ++ post))
    · rw [if_pos hp]
      rfl
    · rw [if_neg hp]
      cases h2 : splitFirstSep sep (pre ++ sep ++ post) with
      | none => rw [h2] at ih; cases ih
      | some pq => rfl

theorem containsSub_iff (l needle : List Char) (hne : needle ≠ []) :
    containsSub l needle = true ↔ ∃ pre post, l = pre ++ needle ++ post := by
  constructor
  · intro h
    unfold containsSub at h
    cases h2 : splitFirstSep needle l with
    | none => rw [h2] at h; cases h
    | some pq =>
      exact ⟨pq.1, pq.2, splitFirstSep_sound needle l pq.1 pq.2 (by rw [h2])⟩
  · intro ⟨pre, post, h⟩
    unfold containsSub
    rw [h]
    exact splitFirstSep_isSome_of_occurs needle pre post hne

theorem not_isPrefixOf_of_mismatchEarly (sep xs : List Char)
    (h : mismatchEarly sep xs = true) (ys : List Char) :
    sep.isPrefixOf (xs ++ ys) = false := by
  induction sep generalizing xs with
  | nil => cases xs <;> simp [mismatchEarly] at h
  | cons s ss ih =>
    cases xs with
    | nil => simp [mismatchEarly] at h
    | cons x xs =>
      simp only [mismatchEarly, Bool.or_eq_true, bne_iff_ne] at h
      rcases h with h | h
      · simp [List.isPrefixOf, h]
      · simp [List.isPrefixOf, ih xs h]

theorem splitFirstSep_append_seg (sep seg ys : List Char) (h : segSafe sep seg = true) :
    splitFirstSep sep (seg ++ ys) =
      Option.map (fun pq => (seg ++ pq.1, pq.2)) (splitFirstSep sep ys) := by
  induction seg with
  | nil =>
    simp only [List.nil_append]
    cases splitFirstSep sep ys with
    | none => rfl
    | some pq => rfl
  | cons c rest ih =>
    simp only [segSafe, Bool.and_eq_true] at h
    have hnp : sep.isPrefixOf (c :: (rest ++ ys)) = false := by
      have := not_isPrefixOf_of_mismatchEarly sep (c :: rest) h.1 ys
      simpa using this
    rw [List.cons_append]
    simp only [splitFirstSep]
    rw [hnp]
    simp only [Bool.false_eq_true, if_false]
    rw [ih h.2]
    cases splitFirstSep sep ys with
    | none => rfl
    | some pq => rfl

theorem mismatchEarly_append_right (sep xs ys : List Char)
    (h : mismatchEarly sep xs = true) : mismatchEarly sep (xs ++ ys) = true := by
  induction sep generalizing xs with
  | nil => cases xs <;> simp [mismatchEarly] at h
  | cons s ss ih =>
    cases xs with
    | nil => simp [mismatchEarly] at h
    | cons x xr =>
      simp only [mismatchEarly, Bool.or_eq_true, bne_iff_ne] at h ⊢
      rcases h with h | h
      · exact Or.inl h
      · exact Or.inr (ih xr h)

theorem segSafe_append (sep xs ys : List Char)
    (hx : segSafe sep xs = true) (hy : segSafe sep ys = true) :
    segSafe sep (xs ++ ys) = true := by
  induction xs with
  | nil => simpa using hy
  | cons c rest ih =>
    simp only [segSafe, Bool.and_eq_true] at hx
    rw [List.cons_append]
    simp only [segSafe, Bool.and_eq_true]
    refine ⟨?_, ih hx.2⟩
    have := mismatchEarly_append_right sep (c :: rest) ys hx.1
    simpa using this

theorem segSafe_of_all_ne (s : Char) (ss v : List Char)
    (h : ∀ c ∈ v, ¬ c = s) : segSafe (s :: ss) v = true := by
  induction v with
  | nil => rfl
  | cons c rest ih =>
    simp only [segSafe, Bool.and_eq_true]
    refine ⟨?_, ih fun d hd => h d (List.mem_cons_of_mem c hd)⟩
    simp only [mismatchEarly, Bool.or_eq_true, bne_iff_ne]
    exact Or.inl fun he => h c (List.mem_cons_self c rest) he.symm

/-! ## splitNl lemma kit -/

theorem splitNl_nl_cons (ys : List Char) : splitNl ('\n' :: ys) = [] :: splitNl ys := by
  simp [splitNl]

theorem splitNl_append_cons (xs : List Char) (h : '\n' ∉ xs) (ys : List Char)
    (l : List Char) (ls : List (List Char)) (hys : splitNl ys = l :: ls) :
    splitNl (xs ++ ys) = (xs ++ l) :: ls := by
  induction xs with
  | nil => simpa using hys
  | cons c rest ih =>
    have hc : ¬ c = '\n' := fun he => h (he ▸ List.mem_cons_self c rest)
    have hr : '\n' ∉ rest := fun hm => h (List.mem_cons_of_mem c hm)
    rw [List.cons_append]
    simp only [splitNl, if_neg hc]
    rw [ih hr]
    rfl

theorem splitNl_nlfree (v : List Char) (h : '\n' ∉ v) : splitNl v = [v] := by
  induction v with
  | nil => rfl
  | cons c rest ih =>
    have hc : ¬ c = '\n' := fun he => h (he ▸ List.mem_cons_self c rest)
    have hr : '\n' ∉ rest := fun hm => h (List.mem_cons_of_mem c hm)
    simp only [splitNl, if_neg hc]
    rw [ih hr]

/-! ## Trimming lemmas -/

theorem trimEndL_append_nl (xs : List Char) : trimEndL (xs ++ ['\n']) = trimEndL xs := by
  simp [trimEndL, List.reverse_append, List.dropWhile]

theorem trimL_space_cons (v : List Char) : trimL (' ' :: v) = trimL v := rfl

/-! ## Board parse lemmas -/

theorem segSafe_fmLines (idd tyd aud sud cad : List Char)
    (hid : '\n' ∉ idd) (hty : '\n' ∉ tyd) (hau : '\n' ∉ aud)
    (hsu : '\n' ∉ sud) (hca : '\n' ∉ cad) :
    segSafe fmSep (fmLines idd tyd aud sud cad) = true := by
  have hv : ∀ v : List Char, '\n' ∉ v → segSafe fmSep v = true := fun v h =>
    segSafe_of_all_ne '\n' ['-', '-', '-', '\n'] v fun c hc he => h (he ▸ hc)
  exact segSafe_append _ _ _ (by decide) (segSafe_append _ _ _ (hv idd hid)
    (segSafe_append _ _ _ (by decide) (segSafe_append _ _ _ (hv tyd hty)
    (segSafe_append _ _ _ (by decide) (segSafe_append _ _ _ (hv aud hau)
    (segSafe_append _ _ _ (by decide) (segSafe_append _ _ _ (hv sud hsu)
    (segSafe_append _ _ _ (by decide) (hv cad hca)))))))))

theorem splitFirstSep_fmLines (idd tyd aud sud cad ys : List Char)
    (hid : '\n' ∉ idd) (hty : '\n' ∉ tyd) (hau : '\n' ∉ aud)
    (hsu : '\n' ∉ sud) (hca : '\n' ∉ cad) :
    splitFirstSep fmSep (fmLines idd tyd aud sud cad ++ (fmSep ++ ys)) =
      some (fmLines idd tyd aud sud cad, ys) := by
  rw [splitFirstSep_append_seg fmSep (fmLines idd tyd aud sud cad) (fmSep ++ ys)
      (segSafe_fmLines idd tyd aud sud cad hid hty hau hsu hca),
    splitFirstSep_self_append fmSep ys (by decide)]
  simp

theorem splitNl_fmLines (idd tyd aud sud cad : List Char)
    (hid : '\n' ∉ idd) (hty : '\n' ∉ tyd) (hau : '\n' ∉ aud)
    (hsu : '\n' ∉ sud) (hca : '\n' ∉ cad) :
    splitNl (fmLines idd tyd aud sud cad) =
      ["id: ".data ++ idd, "type: ".data ++ tyd, "author: ".data ++ aud,
       "summary: ".data ++ sud, "createdAt: ".data ++ cad] := by
  have w5 : splitNl ("createdAt: ".data ++ cad) = ["createdAt: ".data ++ cad] :=
    splitNl_append_cons "createdAt: ".data (by decide) cad cad [] (splitNl_nlfree cad hca)
  have t5 := splitNl_nl_cons ("createdAt: ".data ++ cad)
  rw [w5] at t5
  have w4 := splitNl_append_cons sud hsu _ [] ["createdAt: ".data ++ cad] t5
  rw [List.append_nil] at w4
  have w4c := splitNl_append_cons "summary: ".data (by decide) _ sud
    ["createdAt: ".data ++ cad] w4
  have t4 := splitNl_nl_cons ("summary: ".data ++ (sud ++ ('\n' :: ("createdAt: ".data ++ cad))))
  rw [w4c] at t4
  have w3 := splitNl_append_cons aud hau _ []
    ["summary: ".data ++ sud, "createdAt: ".data ++ cad] t4
  rw [List.append_nil] at w3
  have w3c := splitNl_append_cons "author: ".data (by decide) _ aud
    ["summary: ".data ++ sud, "createdAt: ".data ++ cad] w3
  have t3 := splitNl_nl_cons ("author: ".data ++ (aud ++ ('\n' :: ("summary: ".data ++
    (sud ++ ('\n' :: ("createdAt: ".data ++ cad)))))))
  rw [w3c] at t3
  have w2 := splitNl_append_cons tyd hty _ []
    ["author: ".data ++ aud, "summary: ".data ++ sud, "createdAt: ".data ++ cad] t3
  rw [List.append_nil] at w2
  have w2c := splitNl_append_cons "type: ".data (by decide) _ tyd
    ["author: ".data ++ aud, "summary: ".data ++ sud, "createdAt: ".data ++ cad] w2
  have t2 := splitNl_nl_cons ("type: ".data ++ (tyd ++ ('\n' :: ("author: ".data ++
    (aud ++ ('\n' :: ("summary: ".data ++ (sud ++ ('\n' :: ("createdAt: ".data ++ cad))))))))))
  rw [w2c] at t2
  have w1 := splitNl_append_cons idd hid _ []
    ["type: ".data ++ tyd, "author: ".data ++ aud, "summary: ".data ++ sud,
     "createdAt: ".data ++ cad] t2
  rw [List.append_nil] at w1
  have w1c := splitNl_append_cons "id: ".data (by decide) _ idd
    ["type: ".data ++ tyd, "author: ".data ++ aud, "summary: ".data ++ sud,
     "createdAt: ".data ++ cad] w1
  exact w1c

theorem boardFields_fmLines (idd tyd aud sud cad : List Char)
    (hid : '\n' ∉ idd) (hty : '\n' ∉ tyd) (hau : '\n' ∉ aud)
    (hsu : '\n' ∉ sud) (hca : '\n' ∉ cad) :
    (splitNl (fmLines idd tyd aud sud cad)).foldl boardFieldStep [] =
      [("id", trimL idd), ("type", trimL tyd), ("author", trimL aud),
       ("summary", trimL sud), ("createdAt", trimL cad)] := by
  rw [splitNl_fmLines idd tyd aud sud cad hid hty hau hsu hca]
  rfl

theorem fromMarkdownData_of_split (content : List Char) (fp : String)
    (fmB rest : List Char)
    (hpre : "---\n".data.isPrefixOf content = true)
    (hsplit : splitFirstSep fmSep (content.drop 4) = some (fmB, rest))
    (hne : ¬ fmB = []) :
    fromMarkdownData content fp =
      some { id := ⟨(lookupA ((splitNl fmB).foldl boardFieldStep []) "id").getD []⟩,
             type := ⟨(lookupA ((splitNl fmB).foldl boardFieldStep []) "type").getD []⟩,
             author := ⟨(lookupA ((splitNl fmB).foldl boardFieldStep []) "author").getD []⟩,
             summary := ⟨(lookupA ((splitNl fmB).foldl boardFieldStep []) "summary").getD []⟩,
             body := ⟨trimEndL (dropLeadingNl rest)⟩,
             createdAt := ⟨(lookupA ((splitNl fmB).foldl boardFieldStep []) "createdAt").getD []⟩,
             path := fp } := by
  unfold fromMarkdownData
  rw [if_pos hpre, hsplit]
  simp only [if_neg hne]

/-- fromMarkdown inverts toMarkdown, up to the path field being replaced
by the file path read from, whenever the five frontmatter values contain
no newline and survive String.prototype.trim unchanged and the body
survives trimEnd unchanged. -/
theorem fromMarkdown_toMarkdown (i : BoardItem) (fp : String)
    (hid : '\n' ∉ i.id.data) (hty : '\n' ∉ i.type.data) (hau : '\n' ∉ i.author.data)
    (hsu : '\n' ∉ i.summary.data) (hca : '\n' ∉ i.createdAt.data)
    (tid : trimL i.id.data = i.id.data) (tty : trimL i.type.data = i.type.data)
    (tau : trimL i.author.data = i.author.data) (tsu : trimL i.summary.data = i.summary.data)
    (tca : trimL i.createdAt.data = i.createdAt.data)
    (tbo : trimEndL i.body.data = i.body.data) :
    fromMarkdownData (toMarkdownData i) fp = some { i with path := fp } := by
  obtain ⟨⟨idd⟩, ⟨tyd⟩, ⟨aud⟩, ⟨sud⟩, ⟨bod⟩, ⟨cad⟩, pa⟩ := i
  have hid' : '\n' ∉ idd := hid
  have hty' : '\n' ∉ tyd := hty
  have hau' : '\n' ∉ aud := hau
  have hsu' : '\n' ∉ sud := hsu
  have hca' : '\n' ∉ cad := hca
  have hdrop : (toMarkdownData ⟨⟨idd⟩, ⟨tyd⟩, ⟨aud⟩, ⟨sud⟩, ⟨bod⟩, ⟨cad⟩, pa⟩).drop 4 =
      fmLines idd tyd aud sud cad ++ (fmSep ++ ('\n' :: (bod ++ ['\n']))) := by
    simp only [toMarkdownData, fmLines, List.append_assoc]
    rfl
  have hsplit : splitFirstSep fmSep
      ((toMarkdownData ⟨⟨idd⟩, ⟨tyd⟩, ⟨aud⟩, ⟨sud⟩, ⟨bod⟩, ⟨cad⟩, pa⟩).drop 4) =
      some (fmLines idd tyd aud sud cad, '\n' :: (bod ++ ['\n'])) := by
    rw [hdrop]
    exact splitFirstSep_fmLines idd tyd aud sud cad ('\n' :: (bod ++ ['\n']))
      hid' hty' hau' hsu' hca'
  have hfmne : ¬ fmLines idd tyd aud sud cad = [] := by simp [fmLines]
  rw [fromMarkdownData_of_split (toMarkdownData ⟨⟨idd⟩, ⟨tyd⟩, ⟨aud⟩, ⟨sud⟩, ⟨bod⟩, ⟨cad⟩, pa⟩)
      fp (fmLines idd tyd aud sud cad) ('\n' :: (bod ++ ['\n'])) rfl hsplit hfmne,
    boardFields_fmLines idd tyd aud sud cad hid' hty' hau' hsu' hca']
  have hb : trimEndL (dropLeadingNl ('\n' :: (bod ++ ['\n']))) = bod := by
    have h1 : dropLeadingNl ('\n' :: (bod ++ ['\n'])) = bod ++ ['\n'] := rfl
    rw [h1, trimEndL_append_nl]
    exact tbo
  rw [hb]
  have l1 : (lookupA [("id", trimL idd), ("type", trimL tyd), ("author", trimL aud),
      ("summary", trimL sud), ("createdAt", trimL cad)] "id").getD [] = trimL idd := rfl
  have l2 : (lookupA [("id", trimL idd), ("type", trimL tyd), ("author", trimL aud),
      ("summary", trimL sud), ("createdAt", trimL cad)] "type").getD [] = trimL tyd := rfl
  have l3 : (lookupA [("id", trimL idd), ("type", trimL tyd), ("author", trimL aud),
      ("summary", trimL sud), ("createdAt", trimL cad)] "author").getD [] = trimL aud := rfl
  have l4 : (lookupA [("id", trimL idd), ("type", trimL tyd), ("author", trimL aud),
      ("summary", trimL sud), ("createdAt", trimL cad)] "summary").getD [] = trimL sud := rfl
  have l5 : (lookupA [("id", trimL idd), ("type", trimL tyd), ("author", trimL aud),
      ("summary", trimL sud), ("createdAt", trimL cad)] "createdAt").getD [] = trimL cad := rfl
  have t1 : trimL idd = idd := tid
  have t2 : trimL tyd = tyd := tty
  have t3 : trimL aud = aud := tau
  have t4 : trimL sud = sud := tsu
  have t5 : trimL cad = cad := tca
  rw [l1, l2, l3, l4, l5, t1, t2, t3, t4, t5]

/-- C7 (amended): save followed by get with the same key returns exactly
the saved record for the JSON-file stores (Task, Agent, Message,
Org-Tree).  A board item round-trips with its path field replaced by the
file path it is read from, provided its five frontmatter values (id,
type, author, summary, createdAt) contain no newline and are unchanged
by String.prototype.trim, and its body is unchanged by trimEnd; a
summary containing multiple colons satisfies this and is preserved
exactly through the frontmatter serialization and first-colon-split
parse.  Without these conditions the board round trip can fail (see the
counterexample: a leading space on the summary is dropped). -/
theorem storage_roundtrip
    (ts : List (String × TaskState)) (t : TaskState)
    (ags : List (String × AgentConfig)) (ag : AgentConfig)
    (ms : List (String × List (String × Message))) (m : Message)
    (ot : Option OrgTree) (tr : OrgTree)
    (bs : BoardStore) (i : BoardItem) (fp : String)
    (hid : '\n' ∉ i.id.data) (hty : '\n' ∉ i.type.data) (hau : '\n' ∉ i.author.data)
    (hsu : '\n' ∉ i.summary.data) (hca : '\n' ∉ i.createdAt.data)
    (tid : trimL i.id.data = i.id.data) (tty : trimL i.type.data = i.type.data)
    (tau : trimL i.author.data = i.author.data) (tsu : trimL i.summary.data = i.summary.data)
    (tca : trimL i.createdAt.data = i.createdAt.data)
    (tbo : trimEndL i.body.data = i.body.data) :
    taskGet (taskSave ts t) t.id = some t ∧
    agentGet (agentSave ags ag) ag.name = some ag ∧
    messageGet (messageSave ms m) m.id m.threadId = some m ∧
    orgGet (orgSave ot tr) = tr ∧
    boardGet (boardSave bs i) i.id fp = some { i with path := fp } := by
  refine ⟨lookupA_upsert_self t.id t ts, lookupA_upsert_self ag.name ag ags, ?_, rfl, ?_⟩
  · unfold messageGet messageSave
    rw [lookupA_upsert_self]
    exact lookupA_upsert_self m.id m ((lookupA ms m.threadId).getD [])
  · unfold boardGet boardSave
    rw [lookupA_upsert_self]
    exact fromMarkdown_toMarkdown i fp hid hty hau hsu hca tid tty tau tsu tca tbo

/-- Witness for C7: the concrete records round-trip through their
stores; the board item carries a summary with two colons and comes back
unchanged. -/
theorem storage_roundtrip_witness :
    ('\n' ∉ c7item.id.data) ∧ ('\n' ∉ c7item.type.data) ∧ ('\n' ∉ c7item.author.data) ∧
    ('\n' ∉ c7item.summary.data) ∧ ('\n' ∉ c7item.createdAt.data) ∧
    trimL c7item.summary.data = c7item.summary.data ∧
    trimEndL c7item.body.data = c7item.body.data ∧
    taskGet (taskSave [] c7task) "t7" = some c7task ∧
    agentGet (agentSave [] c7agent) "alice" = some c7agent ∧
    messageGet (messageSave [] c7msg) "m7" "thread-1" = some c7msg ∧
    orgGet (orgSave none c7tree) = c7tree ∧
    boardGet (boardSave [] c7item) "b7" "board/updates/b7.md" = some c7item := by
  have h := storage_roundtrip [] c7task [] c7agent [] c7msg none c7tree [] c7item
    "board/updates/b7.md" (by decide) (by decide) (by decide) (by decide) (by decide)
    (by decide) (by decide) (by decide) (by decide) (by decide) (by decide)
  exact ⟨by decide, by decide, by decide, by decide, by decide, by decide, by decide,
    h.1, h.2.1, h.2.2.1, h.2.2.2.1, h.2.2.2.2⟩

/-- C7 counterexample: a board item whose summary has a leading space
does not round-trip — the frontmatter parse trims the value — even when
read back from the very path it was written to.  The unconditional
every-entity round-trip claim therefore fails for board items. -/
theorem board_roundtrip_counterexample :
    boardGet (boardSave [] c7bad) "b8" "board/updates/b8.md" ≠ some c7bad := by
  decide

/-! ## Claim C4 -/

/-- C4 (amended): the delegation artifact body records the child task id,
the terminal status, and the completion time verbatim; the result text is
recorded after String.prototype.trim rather than verbatim, and the
literal placeholder appears exactly when the result is null — an empty
(non-null) result yields an empty result section instead. -/
theorem childResultBody_contents (childTaskId status nowIso : String) (r : Option String) :
    (childResultBody childTaskId r status nowIso).data =
      "# Child Task Result\n\n**Task ID**: ".data ++ childTaskId.data ++
      "\n**Status**: ".data ++ status.data ++
      "\n**Completed**: ".data ++ nowIso.data ++
      "\n\n---\n\n".data ++
      (match r with
       | some s => trimL s.data
       | none => "(no result provided)".data) ++
      "\n".data := by
  cases r <;> simp [childResultBody]

/-- C4 counterexample: for the empty (non-null) result the artifact body
does not contain the placeholder string that the claim promises for
"null or empty" results; for the null result it does. -/
theorem childResultBody_empty_counterexample :
    (¬ ∃ pre post, (childResultBody "c1" (some "") "failed"
        "2024-06-15T12:00:00.000Z").data = pre ++ "(no result provided)".data ++ post) ∧
    (∃ pre post, (childResultBody "c1" none "failed"
        "2024-06-15T12:00:00.000Z").data = pre ++ "(no result provided)".data ++ post) := by
  constructor
  · intro hex
    have h := (containsSub_iff ((childResultBody "c1" (some "") "failed"
        "2024-06-15T12:00:00.000Z").data) "(no result provided)".data (by decide)).mpr hex
    revert h
    decide
  · exact (containsSub_iff _ _ (by decide)).mp (by decide)

/-! ## Lemmas on well-formed ISO timestamps and sanitized filenames -/

theorem matchesPattern_length (p : List TsClass) (xs : List Char)
    (h : matchesPattern p xs = true) : xs.length = p.length := by
  induction p generalizing xs with
  | nil => cases xs with
    | nil => rfl
    | cons c cs => simp [matchesPattern] at h
  | cons cls ps ih =>
    cases xs with
    | nil => simp [matchesPattern] at h
    | cons c cs =>
      simp only [matchesPattern, Bool.and_eq_true] at h
      simp [ih cs h.2]

theorem sanitizeChar_digit {c : Char} (h : c.isDigit = true) : sanitizeChar c = c := by
  unfold sanitizeChar
  split_ifs with hc
  · rcases hc with rfl | rfl <;> simp [Char.isDigit] at h
  · rfl

theorem char_eq_of_not_lt {a b : Char} (h1 : ¬ a < b) (h2 : ¬ b < a) : a = b := by
  rcases lt_trichotomy a b with h | h | h
  · exact absurd h h1
  · exact h
  · exact absurd h h2

theorem sanitize_preserves_class {cls : TsClass} {a b : Char}
    (ha : classMatches cls a = true) (hb : classMatches cls b = true) :
    (sanitizeChar a = sanitizeChar b ↔ a = b) ∧
    (sanitizeChar a < sanitizeChar b ↔ a < b) := by
  cases cls with
  | digit =>
    simp only [classMatches] at ha hb
    rw [sanitizeChar_digit ha, sanitizeChar_digit hb]
    exact ⟨Iff.rfl, Iff.rfl⟩
  | lit k =>
    simp only [classMatches, decide_eq_true_eq] at ha hb
    subst ha; subst hb
    exact ⟨by simp, by simp⟩

theorem lexLtB_map_sanitize (p : List TsClass) (xs ys r1 r2 : List Char)
    (hx : matchesPattern p xs = true) (hy : matchesPattern p ys = true)
    (h : lexLtB xs ys = true) :
    lexLtB (xs.map sanitizeChar ++ r1) (ys.map sanitizeChar ++ r2) = true := by
  induction p generalizing xs ys with
  | nil =>
    cases xs with
    | cons c cs => simp [matchesPattern] at hx
    | nil =>
      cases ys with
      | cons c cs => simp [matchesPattern] at hy
      | nil => simp [lexLtB] at h
  | cons cls ps ih =>
    cases xs with
    | nil => simp [matchesPattern] at hx
    | cons a as =>
      cases ys with
      | nil => simp [matchesPattern] at hy
      | cons b bs =>
        simp only [matchesPattern, Bool.and_eq_true] at hx hy
        have hcls := sanitize_preserves_class hx.1 hy.1
        simp only [lexLtB] at h
        simp only [List.map_cons, List.cons_append, lexLtB]
        by_cases hab : a < b
        · rw [if_pos (hcls.2.mpr hab)]
        · rw [if_neg (fun hc => hab (hcls.2.mp hc))]
          rw [if_neg hab] at h
          by_cases hba : b < a
          · rw [if_pos hba] at h
            cases h
          · rw [if_neg hba] at h
            have heq : a = b := char_eq_of_not_lt hab hba
            subst heq
            rw [if_neg (by simp)]
            exact ih as bs hx.2 hy.2 h

theorem map_sanitize_inj (p : List TsClass) (xs ys : List Char)
    (hx : matchesPattern p xs = true) (hy : matchesPattern p ys = true)
    (h : xs.map sanitizeChar = ys.map sanitizeChar) : xs = ys := by
  induction p generalizing xs ys with
  | nil =>
    cases xs with
    | cons c cs => simp [matchesPattern] at hx
    | nil =>
      cases ys with
      | cons c cs => simp [matchesPattern] at hy
      | nil => rfl
  | cons cls ps ih =>
    cases xs with
    | nil => simp [matchesPattern] at hx
    | cons a as =>
      cases ys with
      | nil => simp [matchesPattern] at hy
      | cons b bs =>
        simp only [matchesPattern, Bool.and_eq_true] at hx hy
        simp only [List.map_cons, List.cons.injEq] at h
        have hcls := sanitize_preserves_class hx.1 hy.1
        rw [hcls.1.mp h.1, ih as bs hx.2 hy.2 h.2]

theorem resultFileName_data (nowIso childTaskId : String) :
    (resultFileName nowIso childTaskId).data =
      nowIso.data.map sanitizeChar ++ "-".data ++ childTaskId.data ++ ".md".data := by
  simp [resultFileName]

theorem resultFileName_inj (ts1 ts2 cid1 cid2 : String)
    (h1 : WellFormedIso ts1) (h2 : WellFormedIso ts2)
    (heq : resultFileName ts1 cid1 = resultFileName ts2 cid2) :
    ts1 = ts2 ∧ cid1 = cid2 := by
  have hd : (resultFileName ts1 cid1).data = (resultFileName ts2 cid2).data := by rw [heq]
  rw [resultFileName_data, resultFileName_data] at hd
  have hlen : (ts1.data.map sanitizeChar).length = (ts2.data.map sanitizeChar).length := by
    rw [List.length_map, List.length_map, matchesPattern_length isoPattern ts1.data h1,
      matchesPattern_length isoPattern ts2.data h2]
  rw [List.append_assoc, List.append_assoc, List.append_assoc, List.append_assoc] at hd
  obtain ⟨hmap, hrest⟩ := List.append_inj hd hlen
  refine ⟨String.ext (map_sanitize_inj isoPattern ts1.data ts2.data h1 h2 hmap), ?_⟩
  simp only [List.cons_append, List.nil_append] at hrest
  injection hrest with hhead hrest2
  exact String.ext (List.append_inj' hrest2 rfl).1

theorem resultFileName_sorted (ts1 ts2 cid1 cid2 : String)
    (h1 : WellFormedIso ts1) (h2 : WellFormedIso ts2)
    (hlt : lexLtB ts1.data ts2.data = true) :
    lexLtB (resultFileName ts1 cid1).data (resultFileName ts2 cid2).data = true := by
  rw [resultFileName_data, resultFileName_data, List.append_assoc, List.append_assoc,
    List.append_assoc, List.append_assoc]
  exact lexLtB_map_sanitize isoPattern ts1.data ts2.data _ _ h1 h2 hlt

theorem completeAgent_mailboxes_deliver (st : EngineState) (agentName taskId : String)
    (status : TerminalStatus) (result : Option String) (c d n : Option Rat) (nowIso : String)
    (task parentTask : TaskState) (pt dg : String)
    (htask : lookupA st.tasks taskId = some task) (hid : task.id = taskId)
    (hpt : task.parentTaskId = some pt) (hdg : task.delegatorId = some dg)
    (hne : pt ≠ taskId) (hparent : lookupA st.tasks pt = some parentTask) :
    (completeAgent st agentName taskId status result c d n nowIso).mailboxes =
      handleChildCompletion st.mailboxes taskId result status.toTaskStatus.str pt
        parentTask.assigneeId nowIso := by
  unfold completeAgent
  simp only [htask]
  have hpt' : (completedTask task status result c d n nowIso).parentTaskId = some pt := hpt
  have hdg' : (completedTask task status result c d n nowIso).delegatorId = some dg := hdg
  simp only [hpt', hdg']
  have hkey : (completedTask task status result c d n nowIso).id = taskId := hid
  have hl : lookupA (upsert (completedTask task status result c d n nowIso).id
      (completedTask task status result c d n nowIso) st.tasks) pt = some parentTask := by
    rw [hkey, lookupA_upsert_ne taskId pt _ _ (Ne.symm hne)]
    exact hparent
  simp only [hl]
  cases h2 : lookupA st.agents agentName <;> simp [h2]

/-! ## Claim C3 -/

/-- C3: when completeAgent finishes a task carrying a parentTaskId and a
delegatorId and the parent task is still found, exactly one new result
artifact lands in the parent assignee's mailbox
(agents/<assignee>/results/): that mailbox becomes the old mailbox with
one overwriting insert of the new file, whose content is the artifact
body, while every other mailbox is untouched; the filename is the
sanitized timestamp prefix plus the child task id plus ".md"; the body
quotes the child task id and the chosen terminal status verbatim; and
filenames are lexically sorted by timestamp and collide only for an
identical (timestamp, child id) pair. -/
theorem completeAgent_delegation_delivery (st : EngineState) (agentName taskId : String)
    (status : TerminalStatus) (result : Option String) (c d n : Option Rat) (nowIso : String)
    (task parentTask : TaskState) (pt dg : String)
    (htask : lookupA st.tasks taskId = some task) (hid : task.id = taskId)
    (hpt : task.parentTaskId = some pt) (hdg : task.delegatorId = some dg)
    (hne : pt ≠ taskId) (hparent : lookupA st.tasks pt = some parentTask) :
    (lookupA (completeAgent st agentName taskId status result c d n nowIso).mailboxes
        parentTask.assigneeId =
      some (upsert (resultFileName nowIso taskId)
        (childResultBody taskId result status.toTaskStatus.str nowIso)
        ((lookupA st.mailboxes parentTask.assigneeId).getD []))) ∧
    (∀ q, q ≠ parentTask.assigneeId →
      lookupA (completeAgent st agentName taskId status result c d n nowIso).mailboxes q =
        lookupA st.mailboxes q) ∧
    (lookupA (upsert (resultFileName nowIso taskId)
        (childResultBody taskId result status.toTaskStatus.str nowIso)
        ((lookupA st.mailboxes parentTask.assigneeId).getD []))
        (resultFileName nowIso taskId) =
      some (childResultBody taskId result status.toTaskStatus.str nowIso)) ∧
    (lookupA ((lookupA st.mailboxes parentTask.assigneeId).getD [])
        (resultFileName nowIso taskId) = none →
      (upsert (resultFileName nowIso taskId)
        (childResultBody taskId result status.toTaskStatus.str nowIso)
        ((lookupA st.mailboxes parentTask.assigneeId).getD [])).length =
      ((lookupA st.mailboxes parentTask.assigneeId).getD []).length + 1) ∧
    (∀ f c0, (f, c0) ∈ (lookupA st.mailboxes parentTask.assigneeId).getD [] →
      f ≠ resultFileName nowIso taskId →
      (f, c0) ∈ upsert (resultFileName nowIso taskId)
        (childResultBody taskId result status.toTaskStatus.str nowIso)
        ((lookupA st.mailboxes parentTask.assigneeId).getD [])) ∧
    ((resultFileName nowIso taskId).data =
      nowIso.data.map sanitizeChar ++ "-".data ++ taskId.data ++ ".md".data) ∧
    (∃ p1 p2, (childResultBody taskId result status.toTaskStatus.str nowIso).data =
      p1 ++ taskId.data ++ p2) ∧
    (∃ p1 p2, (childResultBody taskId result status.toTaskStatus.str nowIso).data =
      p1 ++ status.toTaskStatus.str.data ++ p2) ∧
    (∀ ts' cid', WellFormedIso ts' → WellFormedIso nowIso →
      lexLtB ts'.data nowIso.data = true →
      lexLtB (resultFileName ts' cid').data (resultFileName nowIso taskId).data = true) ∧
    (∀ ts' cid', WellFormedIso ts' → WellFormedIso nowIso →
      ts' ≠ nowIso ∨ cid' ≠ taskId →
      resultFileName ts' cid' ≠ resultFileName nowIso taskId) := by
  have hmb := completeAgent_mailboxes_deliver st agentName taskId status result c d n nowIso
    task parentTask pt dg htask hid hpt hdg hne hparent
  refine ⟨?_, ?_, ?_, ?_, ?_, ?_, ?_, ?_, ?_, ?_⟩
  · rw [hmb]
    unfold handleChildCompletion
    exact lookupA_upsert_self _ _ _
  · intro q hq
    rw [hmb]
    unfold handleChildCompletion
    exact lookupA_upsert_ne _ _ _ _ (Ne.symm hq)
  · exact lookupA_upsert_self _ _ _
  · intro hfree
    exact length_upsert_of_not_found _ _ _ hfree
  · intro f c0 hmem hne2
    exact mem_upsert_of_ne _ _ _ _ _ hmem hne2
  · exact resultFileName_data nowIso taskId
  · refine ⟨"# Child Task Result\n\n**Task ID**: ".data,
      ("\n**Status**: " ++ status.toTaskStatus.str ++ "\n**Completed**: " ++ nowIso ++
        "\n\n---\n\n" ++ (match result with
          | some r => String.mk (trimL r.data)
          | none => "(no result provided)") ++ "\n").data, ?_⟩
    cases result <;> simp [childResultBody]
  · refine ⟨("# Child Task Result\n\n**Task ID**: " ++ taskId ++ "\n**Status**: ").data,
      ("\n**Completed**: " ++ nowIso ++ "\n\n---\n\n" ++ (match result with
          | some r => String.mk (trimL r.data)
          | none => "(no result provided)") ++ "\n").data, ?_⟩
    cases result <;> simp [childResultBody]
  · intro ts' cid' h1 h2 hlt
    exact resultFileName_sorted ts' nowIso cid' taskId h1 h2 hlt
  · intro ts' cid' h1 h2 hcase heq
    rcases resultFileName_inj ts' nowIso cid' taskId h1 h2 heq with ⟨e1, e2⟩
    rcases hcase with hc | hc
    · exact hc e1
    · exact hc e2

/-- Witness for C3: completing the delegated child task deposits the
artifact in ceo's mailbox, and an artifact written at an earlier
well-formed timestamp sorts lexically before it. -/
theorem completeAgent_delegation_delivery_witness :
    (lookupA (completeAgent stDelegation "eng" "child1" TerminalStatus.completed (some "done")
        none none none "2024-06-15T12:00:00.000Z").mailboxes "ceo" =
      some (upsert (resultFileName "2024-06-15T12:00:00.000Z" "child1")
        (childResultBody "child1" (some "done") "completed" "2024-06-15T12:00:00.000Z")
        ((lookupA stDelegation.mailboxes "ceo").getD []))) ∧
    lexLtB (resultFileName "2024-06-15T11:00:00.000Z" "old-child").data
      (resultFileName "2024-06-15T12:00:00.000Z" "child1").data = true :=
  have h := completeAgent_delegation_delivery stDelegation "eng" "child1"
    TerminalStatus.completed (some "done") none none none "2024-06-15T12:00:00.000Z"
    childSampleTask parentSampleTask "parent1" "ceo" rfl rfl rfl rfl (by decide) rfl
  ⟨h.1, h.2.2.2.2.2.2.2.2.1 "2024-06-15T11:00:00.000Z" "old-child" (by decide) (by decide)
    (by decide)⟩

/-- C3 counterexample: two deliveries for the same child task stamped in
the same millisecond reuse the same filename, so the second overwrites
the first — afterwards the ceo mailbox still holds a single artifact and
its content is the second body, not the first. -/
theorem delegation_overwrite_counterexample :
    ((lookupA (handleChildCompletion [] "c1" (some "first") "completed" "p1" "ceo"
        "2024-06-15T12:00:00.000Z") "ceo").getD []).length = 1 ∧
    ((lookupA (handleChildCompletion (handleChildCompletion [] "c1" (some "first") "completed"
        "p1" "ceo" "2024-06-15T12:00:00.000Z") "c1" (some "second") "completed" "p1" "ceo"
        "2024-06-15T12:00:00.000Z") "ceo").getD []).length = 1 ∧
    lookupA ((lookupA (handleChildCompletion (handleChildCompletion [] "c1" (some "first")
        "completed" "p1" "ceo" "2024-06-15T12:00:00.000Z") "c1" (some "second") "completed"
        "p1" "ceo" "2024-06-15T12:00:00.000Z") "ceo").getD [])
      (resultFileName "2024-06-15T12:00:00.000Z" "c1") =
      some (childResultBody "c1" (some "second") "completed" "2024-06-15T12:00:00.000Z") ∧
    childResultBody "c1" (some "second") "completed" "2024-06-15T12:00:00.000Z" ≠
      childResultBody "c1" (some "first") "completed" "2024-06-15T12:00:00.000Z" := by
  refine ⟨rfl, rfl, ?_, by decide⟩
  decide

/-! ## Claim C8 -/

/-- C8 (amended): task listing is sorted descending by the createdAt
timestamp value and is a permutation of the filtered records; message
thread listing and unread aggregation are sorted ascending.  The orders
are strict only when the createdAt values involved are pairwise
distinct: records sharing a timestamp appear adjacent in stable-sort
order (see the counterexample for the strict reading of the claim). -/
theorem storage_list_orderings :
    (∀ stored aF sF, List.Pairwise
      (fun a b : TaskState => dateNum b.createdAt ≤ dateNum a.createdAt)
      (taskStorageList stored aF sF)) ∧
    (∀ stored aF sF, (taskStorageList stored aF sF).Perm
      (stored.filter (taskFilterPred aF sF))) ∧
    (∀ stored, List.Pairwise
      (fun a b : Message => dateNum a.createdAt ≤ dateNum b.createdAt)
      (listThread stored)) ∧
    (∀ threads agentName, List.Pairwise
      (fun a b : Message => dateNum a.createdAt ≤ dateNum b.createdAt)
      (getUnread threads agentName)) ∧
    (∀ stored aF sF, List.Pairwise
      (fun a b : TaskState => dateNum a.createdAt ≠ dateNum b.createdAt) stored →
      List.Pairwise (fun a b : TaskState => dateNum b.createdAt < dateNum a.createdAt)
        (taskStorageList stored aF sF)) ∧
    (∀ stored, List.Pairwise
      (fun a b : Message => dateNum a.createdAt ≠ dateNum b.createdAt) stored →
      List.Pairwise (fun a b : Message => dateNum a.createdAt < dateNum b.createdAt)
        (listThread stored)) := by
  refine ⟨?_, ?_, ?_, ?_, ?_, ?_⟩
  · intro stored aF sF
    exact List.sorted_insertionSort taskDescLe _
  · intro stored aF sF
    exact List.perm_insertionSort taskDescLe _
  · intro stored
    exact List.sorted_insertionSort msgAscLe _
  · intro threads agentName
    exact List.sorted_insertionSort msgAscLe _
  · intro stored aF sF hdist
    have hsorted := List.sorted_insertionSort taskDescLe
      (stored.filter (taskFilterPred aF sF))
    have hperm := List.perm_insertionSort taskDescLe
      (stored.filter (taskFilterPred aF sF))
    have hdistF := hdist.filter (taskFilterPred aF sF)
    have hdistS : List.Pairwise
        (fun a b : TaskState => dateNum a.createdAt ≠ dateNum b.createdAt)
        (taskStorageList stored aF sF) :=
      ((hperm.pairwise_iff (fun h => Ne.symm h)).mpr hdistF)
    exact List.Pairwise.imp₂ (fun a b hle hne => lt_of_le_of_ne hle (Ne.symm hne))
      hsorted hdistS
  · intro stored hdist
    have hsorted := List.sorted_insertionSort msgAscLe stored
    have hperm := List.perm_insertionSort msgAscLe stored
    have hdistS : List.Pairwise
        (fun a b : Message => dateNum a.createdAt ≠ dateNum b.createdAt)
        (listThread stored) :=
      ((hperm.pairwise_iff (fun h => Ne.symm h)).mpr hdist)
    exact List.Pairwise.imp₂ (fun a b hle hne => lt_of_le_of_ne hle hne) hsorted hdistS

/-- Witness for C8 on a concrete two-task store with distinct timestamps:
the listing is sorted descending, strictly so. -/
theorem storage_list_orderings_witness :
    List.Pairwise (fun a b : TaskState => dateNum b.createdAt ≤ dateNum a.createdAt)
      (taskStorageList [taskA, taskB] none none) ∧
    List.Pairwise (fun a b : TaskState => dateNum b.createdAt < dateNum a.createdAt)
      (taskStorageList [taskA, taskB] none none) :=
  ⟨storage_list_orderings.1 [taskA, taskB] none none,
   storage_list_orderings.2.2.2.2.1 [taskA, taskB] none none (by decide)⟩

/-- C8 counterexample: with two tasks created in the same millisecond the
task listing is not strictly descending by createdAt, so the claim's
strictness fails on this reachable store state. -/
theorem task_list_not_strict_counterexample :
    taskStorageList [taskA, taskC] none none = [taskA, taskC] ∧
    dateNum taskA.createdAt = dateNum taskC.createdAt ∧
    ¬ List.Pairwise (fun a b : TaskState => dateNum b.createdAt < dateNum a.createdAt)
      (taskStorageList [taskA, taskC] none none) := by
  refine ⟨by decide, by decide, ?_⟩
  intro h
  rw [(by decide : taskStorageList [taskA, taskC] none none = [taskA, taskC])] at h
  have hlt := List.rel_of_pairwise_cons h (List.mem_cons_self _ _)
  exact absurd hlt (by decide)

theorem setMeta_children (c : OrgNode) (q : Option String) (i : Nat) :
    (setMeta c q i).children = c.children := by
  cases c
  rfl

theorem setMeta_parent (c : OrgNode) (q : Option String) (i : Nat) :
    (setMeta c q i).parentAgentName = q := by
  cases c
  rfl

theorem setMeta_name (c : OrgNode) (q : Option String) (i : Nat) :
    (setMeta c q i).agentName = c.agentName := by
  cases c
  rfl

theorem namesL_append (xs ys : List OrgNode) :
    namesL (xs ++ ys) = namesL xs ++ namesL ys := by
  induction xs with
  | nil => rfl
  | cons n rest ih => simp [namesL, ih]

theorem findNodeL_append (xs ys : List OrgNode) (q : String) :
    findNodeL (xs ++ ys) q =
      match findNodeL xs q with
      | some f => some f
      | none => findNodeL ys q := by
  induction xs with
  | nil => simp [findNodeL]
  | cons n rest ih =>
    simp only [List.cons_append, findNodeL]
    cases findNode1 n q with
    | some f => rfl
    | none =>
      have hre : rest.append ys = rest ++ ys := rfl
      rw [hre, ih]

mutual
theorem findNode1_none_iff (n : OrgNode) (q : String) :
    findNode1 n q = none ↔ q ∉ names1 n := by
  match n with
  | .mk a p c pos =>
    simp only [findNode1, names1, List.mem_cons]
    by_cases ha : a = q
    · simp [ha]
    · simp only [ha, if_false, if_neg ha]
      rw [findNodeL_none_iff c q]
      constructor
      · intro h hcase
        rcases hcase with hcase | hcase
        · exact ha hcase.symm
        · exact h hcase
      · intro h hmem
        exact h (Or.inr hmem)
theorem findNodeL_none_iff (ns : List OrgNode) (q : String) :
    findNodeL ns q = none ↔ q ∉ namesL ns := by
  match ns with
  | [] => simp [findNodeL, namesL]
  | n :: rest =>
    simp only [findNodeL, namesL, List.mem_append]
    cases hf : findNode1 n q with
    | some f =>
      simp only []
      constructor
      · intro h; cases h
      · intro h
        exact absurd ((findNode1_none_iff n q).mpr (fun hm => h (Or.inl hm)))
          (by rw [hf]; intro hh; cases hh)
    | none =>
      simp only []
      rw [findNodeL_none_iff rest q]
      have hn := (findNode1_none_iff n q).mp hf
      constructor
      · intro h hcase
        rcases hcase with hcase | hcase
        · exact hn hcase
        · exact h hcase
      · intro h hmem
        exact h (Or.inr hmem)
end

theorem findNode1_mem_of_some (n : OrgNode) (q : String) (qn : OrgNode)
    (h : findNode1 n q = some qn) : q ∈ names1 n := by
  by_contra hmem
  rw [← findNode1_none_iff n q] at hmem
  rw [h] at hmem
  cases hmem

theorem findNodeL_mem_of_some (ns : List OrgNode) (q : String) (qn : OrgNode)
    (h : findNodeL ns q = some qn) : q ∈ namesL ns := by
  by_contra hmem
  rw [← findNodeL_none_iff ns q] at hmem
  rw [h] at hmem
  cases hmem

mutual
theorem findNode1_name (n : OrgNode) (q : String) (qn : OrgNode)
    (h : findNode1 n q = some qn) : qn.agentName = q := by
  match n with
  | .mk a p c pos =>
    simp only [findNode1] at h
    by_cases ha : a = q
    · rw [if_pos ha] at h
      cases h
      exact ha
    · rw [if_neg ha] at h
      exact findNodeL_name c q qn h
theorem findNodeL_name (ns : List OrgNode) (q : String) (qn : OrgNode)
    (h : findNodeL ns q = some qn) : qn.agentName = q := by
  match ns with
  | [] => cases h
  | n :: rest =>
    simp only [findNodeL] at h
    cases hf : findNode1 n q with
    | some f =>
      rw [hf] at h
      cases h
      exact findNode1_name n q _ hf
    | none =>
      rw [hf] at h
      exact findNodeL_name rest q qn h
end

mutual
theorem names_findNode1_sublist (n : OrgNode) (q : String) (qn : OrgNode)
    (h : findNode1 n q = some qn) : (names1 qn).Sublist (names1 n) := by
  match n with
  | .mk a p c pos =>
    simp only [findNode1] at h
    by_cases ha : a = q
    · rw [if_pos ha] at h
      cases h
      exact List.Sublist.refl _
    · rw [if_neg ha] at h
      have := names_findNodeL_sublist c q qn h
      exact this.trans (List.sublist_cons_self a (namesL c))
theorem names_findNodeL_sublist (ns : List OrgNode) (q : String) (qn : OrgNode)
    (h : findNodeL ns q = some qn) : (names1 qn).Sublist (namesL ns) := by
  match ns with
  | [] => cases h
  | n :: rest =>
    simp only [findNodeL] at h
    cases hf : findNode1 n q with
    | some f =>
      rw [hf] at h
      cases h
      exact (names_findNode1_sublist n q _ hf).trans (List.sublist_append_left _ _)
    | none =>
      rw [hf] at h
      exact (names_findNodeL_sublist rest q qn h).trans (List.sublist_append_right _ _)
end

mutual
theorem names_removeNode1_sublist (nm : String) (n : OrgNode) :
    (names1 (removeNode1 nm n)).Sublist (names1 n) := by
  match n with
  | .mk a p c pos =>
    simp only [removeNode1, names1]
    exact (names_removeNodeL_sublist nm c).cons₂ a
theorem names_removeNodeL_sublist (nm : String) (ns : List OrgNode) :
    (namesL (removeNodeL nm ns)).Sublist (namesL ns) := by
  match ns with
  | [] => exact List.Sublist.refl _
  | n :: rest =>
    simp only [removeNodeL]
    by_cases ha : n.agentName = nm
    · rw [if_pos ha]
      simp only [namesL]
      exact (names_removeNodeL_sublist nm rest).trans (List.sublist_append_right _ _)
    · rw [if_neg ha]
      simp only [namesL]
      exact (names_removeNode1_sublist nm n).append (names_removeNodeL_sublist nm rest)
end

mutual
theorem not_mem_names_removeNode1 (nm : String) (n : OrgNode) (hne : n.agentName ≠ nm) :
    nm ∉ names1 (removeNode1 nm n) := by
  match n with
  | .mk a p c pos =>
    simp only [removeNode1, names1, List.mem_cons]
    intro hcase
    rcases hcase with hcase | hcase
    · exact hne hcase.symm
    · exact not_mem_names_removeNodeL nm c hcase
theorem not_mem_names_removeNodeL (nm : String) (ns : List OrgNode) :
    nm ∉ namesL (removeNodeL nm ns) := by
  match ns with
  | [] => simp [removeNodeL, namesL]
  | n :: rest =>
    simp only [removeNodeL]
    by_cases ha : n.agentName = nm
    · rw [if_pos ha]
      exact not_mem_names_removeNodeL nm rest
    · rw [if_neg ha]
      simp only [namesL, List.mem_append]
      intro hcase
      rcases hcase with hcase | hcase
      · exact not_mem_names_removeNode1 nm n ha hcase
      · exact not_mem_names_removeNodeL nm rest hcase
end

mutual
theorem removeNode1_noop (nm : String) (n : OrgNode) (h : nm ∉ names1 n) :
    removeNode1 nm n = n := by
  match n with
  | .mk a p c pos =>
    simp only [names1, List.mem_cons] at h
    push_neg at h
    simp only [removeNode1]
    rw [removeNodeL_noop nm c h.2]
theorem removeNodeL_noop (nm : String) (ns : List OrgNode) (h : nm ∉ namesL ns) :
    removeNodeL nm ns = ns := by
  match ns with
  | [] => rfl
  | n :: rest =>
    simp only [namesL, List.mem_append] at h
    push_neg at h
    have hn : n.agentName ≠ nm := by
      intro hh
      apply h.1
      match n with
      | .mk a p c pos =>
        simp only [OrgNode.agentName] at hh
        simp [names1, hh]
    simp only [removeNodeL, if_neg hn]
    rw [removeNode1_noop nm n h.1, removeNodeL_noop nm rest h.2]
end

/-- When no surviving sibling hides the removed name in its subtree, the
list step of the removal is exactly the source's array filter, and the
survivors are untouched. -/
theorem removeNodeL_eq_filter (nm : String) (ns : List OrgNode)
    (h : ∀ c ∈ ns, c.agentName ≠ nm → nm ∉ names1 c) :
    removeNodeL nm ns = ns.filter (fun c => ¬ c.agentName = nm) := by
  induction ns with
  | nil => rfl
  | cons n rest ih =>
    simp only [removeNodeL]
    by_cases ha : n.agentName = nm
    · rw [if_pos ha]
      rw [List.filter_cons_of_neg (by simp [ha])]
      exact ih (fun c hc => h c (List.mem_cons_of_mem n hc))
    · rw [if_neg ha]
      rw [List.filter_cons_of_pos (by simp [ha])]
      rw [removeNode1_noop nm n (h n (List.mem_cons_self n rest) ha)]
      rw [ih (fun c hc => h c (List.mem_cons_of_mem n hc))]

theorem agentName_mem_names1 (n : OrgNode) : n.agentName ∈ names1 n := by
  match n with
  | .mk a p c pos => simp [OrgNode.agentName, names1]

mutual
theorem findNode1_removeNode1 (A p : String) (n an pn : OrgNode)
    (hnd : (names1 n).Nodup)
    (hne : n.agentName ≠ A)
    (hA : findNodeL n.children A = some an)
    (hp : findNode1 n p = some pn)
    (hpan : p ∉ names1 an) :
    findNode1 (removeNode1 A n) p = some (removeNode1 A pn) := by
  match n with
  | .mk a pr ch pos =>
    simp only [OrgNode.children] at hA
    simp only [findNode1] at hp
    by_cases hap : a = p
    · rw [if_pos hap] at hp
      cases hp
      simp only [removeNode1, findNode1, if_pos hap]
    · rw [if_neg hap] at hp
      simp only [removeNode1, findNode1, if_neg hap]
      exact findNodeL_removeNodeL A p ch an pn (List.Nodup.of_cons hnd) hA hp hpan
theorem findNodeL_removeNodeL (A p : String) (ns : List OrgNode) (an pn : OrgNode)
    (hnd : (namesL ns).Nodup)
    (hA : findNodeL ns A = some an)
    (hp : findNodeL ns p = some pn)
    (hpan : p ∉ names1 an) :
    findNodeL (removeNodeL A ns) p = some (removeNode1 A pn) := by
  match ns with
  | [] => cases hA
  | n :: rest =>
    simp only [namesL] at hnd
    rw [List.nodup_append] at hnd
    obtain ⟨hnd1, hnd2, hdisj⟩ := hnd
    simp only [findNodeL] at hA hp
    cases hfA : findNode1 n A with
    | some anf =>
      rw [hfA] at hA
      injection hA with hAeq
      subst hAeq
      have hAmem : A ∈ names1 n := findNode1_mem_of_some n A anf hfA
      by_cases hn : n.agentName = A
      · have han : anf = n := by
          match n with
          | .mk a pr ch pos =>
            simp only [OrgNode.agentName] at hn
            simp only [findNode1, if_pos hn] at hfA
            injection hfA with h2
            exact h2.symm
        have hpann : p ∉ names1 n := han ▸ hpan
        simp only [removeNodeL, if_pos hn]
        rw [(findNode1_none_iff n p).mpr hpann] at hp
        have hp2 : findNodeL rest p = some pn := hp
        have hArest : A ∉ namesL rest := hdisj hAmem
        rw [removeNodeL_noop A rest hArest, hp2]
        have hppn : A ∉ names1 pn :=
          fun hmem => hArest ((names_findNodeL_sublist rest p pn hp2).subset hmem)
        rw [removeNode1_noop A pn hppn]
      · have hA2 : findNodeL n.children A = some anf := by
          match n with
          | .mk a pr ch pos =>
            simp only [OrgNode.agentName] at hn
            simp only [findNode1, if_neg hn] at hfA
            exact hfA
        simp only [removeNodeL, if_neg hn]
        cases hfp : findNode1 n p with
        | some pnf =>
          rw [hfp] at hp
          injection hp with hpeq
          subst hpeq
          simp only [findNodeL]
          rw [findNode1_removeNode1 A p n anf pnf hnd1 hn hA2 hfp hpan]
        | none =>
          rw [hfp] at hp
          have hp2 : findNodeL rest p = some pn := hp
          simp only [findNodeL]
          have hpn1 : p ∉ names1 (removeNode1 A n) := by
            intro hmem
            exact ((findNode1_none_iff n p).mp hfp)
              ((names_removeNode1_sublist A n).subset hmem)
          rw [(findNode1_none_iff (removeNode1 A n) p).mpr hpn1]
          have hArest : A ∉ namesL rest := hdisj hAmem
          rw [removeNodeL_noop A rest hArest, hp2]
          have hppn : A ∉ names1 pn :=
            fun hmem => hArest ((names_findNodeL_sublist rest p pn hp2).subset hmem)
          rw [removeNode1_noop A pn hppn]
    | none =>
      rw [hfA] at hA
      have hA2 : findNodeL rest A = some an := hA
      have hAn : A ∉ names1 n := (findNode1_none_iff n A).mp hfA
      have hn : n.agentName ≠ A := by
        intro hh
        exact hAn (hh ▸ agentName_mem_names1 n)
      simp only [removeNodeL, if_neg hn]
      rw [removeNode1_noop A n hAn]
      simp only [findNodeL]
      cases hfp : findNode1 n p with
      | some pnf =>
        rw [hfp] at hp
        injection hp with hpeq
        subst hpeq
        have hppn : A ∉ names1 pnf :=
          fun hmem => hAn ((names_findNode1_sublist n p pnf hfp).subset hmem)
        rw [removeNode1_noop A pnf hppn]
      | none =>
        rw [hfp] at hp
        have hp2 : findNodeL rest p = some pn := hp
        exact findNodeL_removeNodeL A p rest an pn hnd2 hA2 hp2 hpan
end

theorem findNodeL_single (x : OrgNode) (q : String) :
    findNodeL [x] q = findNode1 x q := by
  simp only [findNodeL]
  cases findNode1 x q <;> rfl

theorem namesL_single (x : OrgNode) : namesL [x] = names1 x := by
  simp [namesL]

mutual
theorem appendChildAt1_none (pname : String) (mkChild : Nat → OrgNode) (n : OrgNode)
    (h : pname ∉ names1 n) : appendChildAt1 pname mkChild n = none := by
  match n with
  | .mk a p c pos =>
    simp only [names1, List.mem_cons] at h
    push_neg at h
    have hne2 : ¬ a = pname := fun hh => h.1 (Eq.symm hh)
    simp only [appendChildAt1, if_neg hne2]
    rw [appendChildAtL_none pname mkChild c h.2]
theorem appendChildAtL_none (pname : String) (mkChild : Nat → OrgNode) (ns : List OrgNode)
    (h : pname ∉ namesL ns) : appendChildAtL pname mkChild ns = none := by
  match ns with
  | [] => rfl
  | n :: rest =>
    simp only [namesL, List.mem_append] at h
    push_neg at h
    simp only [appendChildAtL]
    rw [appendChildAt1_none pname mkChild n h.1, appendChildAtL_none pname mkChild rest h.2]
end

mutual
theorem appendChildAt1_spec (pname : String) (mkChild : Nat → OrgNode) (n pn : OrgNode)
    (hcount : (names1 n).count pname = 1)
    (hfind : findNode1 n pname = some pn) :
    ∃ n', appendChildAt1 pname mkChild n = some n' ∧
      findNode1 n' pname = some (appendChild pn mkChild) ∧
      (names1 n').Perm (names1 n ++ names1 (mkChild pn.children.length)) ∧
      (∀ b, b ∉ names1 n → b ∈ names1 (mkChild pn.children.length) →
        findNode1 n' b = findNode1 (mkChild pn.children.length) b) := by
  match n with
  | .mk a pr ch pos =>
    simp only [findNode1] at hfind
    by_cases hap : a = pname
    · rw [if_pos hap] at hfind
      injection hfind with hpn
      subst hpn
      refine ⟨.mk a pr (ch ++ [mkChild ch.length]) pos, ?_, ?_, ?_, ?_⟩
      · simp only [appendChildAt1, if_pos hap]
      · simp only [findNode1, if_pos hap, appendChild, OrgNode.children]
      · simp only [names1, OrgNode.children, namesL_append, namesL_single]
        simp [List.perm_append_comm]
      · intro b hb hbnew
        simp only [names1, OrgNode.children, List.mem_cons] at hb
        push_neg at hb
        have hne2 : ¬ a = b := fun hh => hb.1 (Eq.symm hh)
        simp only [findNode1, if_neg hne2]
        rw [findNodeL_append, (findNodeL_none_iff ch b).mpr hb.2, findNodeL_single]
        rfl
    · rw [if_neg hap] at hfind
      simp only [names1, List.count_cons] at hcount
      have hcnum : (namesL ch).count pname = 1 := by
        simpa [beq_iff_eq, hap] using hcount
      obtain ⟨ch', hch1, hch2, hch3, hch4⟩ :=
        appendChildAtL_spec pname mkChild ch pn hcnum hfind
      refine ⟨.mk a pr ch' pos, ?_, ?_, ?_, ?_⟩
      · simp only [appendChildAt1, if_neg hap, hch1]
      · simp only [findNode1, if_neg hap]
        exact hch2
      · simp only [names1, OrgNode.children]
        refine (hch3.cons a).trans ?_
        rw [List.cons_append]
        exact List.Perm.refl _
      · intro b hb hbnew
        simp only [names1, List.mem_cons] at hb
        push_neg at hb
        have hne2 : ¬ a = b := fun hh => hb.1 (Eq.symm hh)
        simp only [findNode1, if_neg hne2]
        exact hch4 b hb.2 hbnew
theorem appendChildAtL_spec (pname : String) (mkChild : Nat → OrgNode) (ns : List OrgNode)
    (pn : OrgNode)
    (hcount : (namesL ns).count pname = 1)
    (hfind : findNodeL ns pname = some pn) :
    ∃ ns', appendChildAtL pname mkChild ns = some ns' ∧
      findNodeL ns' pname = some (appendChild pn mkChild) ∧
      (namesL ns').Perm (namesL ns ++ names1 (mkChild pn.children.length)) ∧
      (∀ b, b ∉ namesL ns → b ∈ names1 (mkChild pn.children.length) →
        findNodeL ns' b = findNode1 (mkChild pn.children.length) b) := by
  match ns with
  | [] => cases hfind
  | m :: rest =>
    simp only [namesL, List.count_append] at hcount
    simp only [findNodeL] at hfind
    cases hfm : findNode1 m pname with
    | some pn0 =>
      rw [hfm] at hfind
      injection hfind with hpn
      subst hpn
      have hmem : pname ∈ names1 m := findNode1_mem_of_some m pname pn0 hfm
      have hpos : 0 < (names1 m).count pname := List.count_pos_iff_mem.mpr hmem
      have hc1 : (names1 m).count pname = 1 := by omega
      have hc0 : (namesL rest).count pname = 0 := by omega
      have hrest : pname ∉ namesL rest := by
        rw [← List.count_eq_zero]
        exact hc0
      obtain ⟨m', hm1, hm2, hm3, hm4⟩ := appendChildAt1_spec pname mkChild m pn0 hc1 hfm
      refine ⟨m' :: rest, ?_, ?_, ?_, ?_⟩
      · simp only [appendChildAtL, hm1]
      · simp only [findNodeL, hm2]
      · simp only [namesL]
        refine (hm3.append_right (namesL rest)).trans ?_
        rw [List.append_assoc, List.append_assoc]
        exact List.Perm.append_left _ List.perm_append_comm
      · intro b hb hbnew
        simp only [namesL, List.mem_append] at hb
        push_neg at hb
        have hfb := hm4 b hb.1 hbnew
        simp only [findNodeL, hfb]
        cases hnewb : findNode1 (mkChild pn0.children.length) b with
        | some f => rfl
        | none => exact absurd hbnew ((findNode1_none_iff _ b).mp hnewb)
    | none =>
      rw [hfm] at hfind
      have hnm : pname ∉ names1 m := (findNode1_none_iff m pname).mp hfm
      have hc0 : (names1 m).count pname = 0 := by
        rw [List.count_eq_zero]
        exact hnm
      obtain ⟨rest', hr1, hr2, hr3, hr4⟩ :=
        appendChildAtL_spec pname mkChild rest pn (by omega) hfind
      refine ⟨m :: rest', ?_, ?_, ?_, ?_⟩
      · simp only [appendChildAtL]
        rw [appendChildAt1_none pname mkChild m hnm, hr1]
      · simp only [findNodeL, hfm]
        exact hr2
      · simp only [namesL]
        refine (hr3.append_left (names1 m)).trans ?_
        rw [List.append_assoc]
      · intro b hb hbnew
        simp only [namesL, List.mem_append] at hb
        push_neg at hb
        have hfb : findNode1 m b = none := (findNode1_none_iff m b).mpr hb.1
        simp only [findNodeL, hfb]
        exact hr4 b hb.2 hbnew
end

mutual
theorem subtree_removed1 (A : String) (n an : OrgNode) (q : String)
    (hnd : (names1 n).Nodup) (hne : n.agentName ≠ A)
    (hA : findNodeL n.children A = some an) (hq : q ∈ names1 an) :
    q ∉ names1 (removeNode1 A n) := by
  match n with
  | .mk a pr ch pos =>
    simp only [OrgNode.children] at hA
    simp only [removeNode1, names1, List.mem_cons]
    simp only [names1] at hnd
    intro hcase
    rcases hcase with hcase | hcase
    · subst hcase
      have hsub : q ∈ namesL ch := (names_findNodeL_sublist ch A an hA).subset hq
      exact (List.nodup_cons.mp hnd).1 hsub
    · exact subtree_removedL A ch an q (List.Nodup.of_cons hnd) hA hq hcase
theorem subtree_removedL (A : String) (ns : List OrgNode) (an : OrgNode) (q : String)
    (hnd : (namesL ns).Nodup) (hA : findNodeL ns A = some an) (hq : q ∈ names1 an) :
    q ∉ namesL (removeNodeL A ns) := by
  match ns with
  | [] => cases hA
  | n :: rest =>
    simp only [namesL] at hnd
    rw [List.nodup_append] at hnd
    obtain ⟨hnd1, hnd2, hdisj⟩ := hnd
    simp only [findNodeL] at hA
    cases hfA : findNode1 n A with
    | some anf =>
      rw [hfA] at hA
      injection hA with hAeq
      subst hAeq
      have hAmem : A ∈ names1 n := findNode1_mem_of_some n A anf hfA
      have hqn : q ∈ names1 n := (names_findNode1_sublist n A anf hfA).subset hq
      by_cases hn : n.agentName = A
      · simp only [removeNodeL, if_pos hn]
        intro hcase
        exact hdisj hqn ((names_removeNodeL_sublist A rest).subset hcase)
      · have hA2 : findNodeL n.children A = some anf := by
          match n with
          | .mk a pr ch pos =>
            simp only [OrgNode.agentName] at hn
            simp only [findNode1, if_neg hn] at hfA
            exact hfA
        simp only [removeNodeL, if_neg hn, namesL, List.mem_append]
        intro hcase
        rcases hcase with hcase | hcase
        · exact subtree_removed1 A n anf q hnd1 hn hA2 hq hcase
        · exact hdisj hqn ((names_removeNodeL_sublist A rest).subset hcase)
    | none =>
      rw [hfA] at hA
      have hA2 : findNodeL rest A = some an := hA
      have hAn : A ∉ names1 n := (findNode1_none_iff n A).mp hfA
      have hn : n.agentName ≠ A := fun hh => hAn (hh ▸ agentName_mem_names1 n)
      have hqrest : q ∈ namesL rest := (names_findNodeL_sublist rest A an hA2).subset hq
      simp only [removeNodeL, if_neg hn, namesL, List.mem_append]
      intro hcase
      rcases hcase with hcase | hcase
      · have : q ∈ names1 n := (names_removeNode1_sublist A n).subset hcase
        exact hdisj this hqrest
      · exact subtree_removedL A rest an q hnd2 hA2 hq hcase
end

mutual
theorem appendChildAt1_find_new (p b : String) (bp : Option String) (n n' : OrgNode)
    (h : appendChildAt1 p (fun len => OrgNode.mk b bp [] len) n = some n')
    (hb : b ∉ names1 n) :
    ∃ len, findNode1 n' b = some (OrgNode.mk b bp [] len) := by
  match n with
  | .mk a2 pr ch pos =>
    simp only [names1, List.mem_cons] at hb
    push_neg at hb
    simp only [appendChildAt1] at h
    by_cases hap : a2 = p
    · rw [if_pos hap] at h
      injection h with hn'
      subst hn'
      have hne2 : ¬ a2 = b := fun hh => hb.1 (Eq.symm hh)
      simp only [findNode1, if_neg hne2]
      rw [findNodeL_append, (findNodeL_none_iff ch b).mpr hb.2, findNodeL_single]
      exact ⟨ch.length, by simp [findNode1]⟩
    · rw [if_neg hap] at h
      cases hch : appendChildAtL p (fun len => OrgNode.mk b bp [] len) ch with
      | none => rw [hch] at h; cases h
      | some ch' =>
        rw [hch] at h
        injection h with hn'
        subst hn'
        obtain ⟨len, hlen⟩ := appendChildAtL_find_new p b bp ch ch' hch hb.2
        have hne2 : ¬ a2 = b := fun hh => hb.1 (Eq.symm hh)
        exact ⟨len, by simp only [findNode1, if_neg hne2]; exact hlen⟩
theorem appendChildAtL_find_new (p b : String) (bp : Option String) (ns ns' : List OrgNode)
    (h : appendChildAtL p (fun len => OrgNode.mk b bp [] len) ns = some ns')
    (hb : b ∉ namesL ns) :
    ∃ len, findNodeL ns' b = some (OrgNode.mk b bp [] len) := by
  match ns with
  | [] => cases h
  | m :: rest =>
    simp only [namesL, List.mem_append] at hb
    push_neg at hb
    simp only [appendChildAtL] at h
    cases hfm : appendChildAt1 p (fun len => OrgNode.mk b bp [] len) m with
    | some m' =>
      rw [hfm] at h
      injection h with hns'
      subst hns'
      obtain ⟨len, hlen⟩ := appendChildAt1_find_new p b bp m m' hfm hb.1
      exact ⟨len, by simp only [findNodeL, hlen]⟩
    | none =>
      rw [hfm] at h
      cases hrest : appendChildAtL p (fun len => OrgNode.mk b bp [] len) rest with
      | none => rw [hrest] at h; cases h
      | some rest' =>
        rw [hrest] at h
        injection h with hns'
        subst hns'
        obtain ⟨len, hlen⟩ := appendChildAtL_find_new p b bp rest rest' hrest hb.2
        have hfb : findNode1 m b = none := (findNode1_none_iff m b).mpr hb.1
        exact ⟨len, by simp only [findNodeL, hfb]; exact hlen⟩
end

mutual
theorem appendChildAt1_names_new (p b : String) (bp : Option String) (n n' : OrgNode)
    (h : appendChildAt1 p (fun len => OrgNode.mk b bp [] len) n = some n')
    (q : String) (hq : q ≠ b) (hmem : q ∈ names1 n') : q ∈ names1 n := by
  match n with
  | .mk a2 pr ch pos =>
    simp only [appendChildAt1] at h
    by_cases hap : a2 = p
    · rw [if_pos hap] at h
      injection h with hn'
      subst hn'
      simp only [names1, List.mem_cons, namesL_append, namesL_single,
        List.mem_append] at hmem ⊢
      rcases hmem with hmem | hmem | hmem
      · exact Or.inl hmem
      · exact Or.inr hmem
      · simp only [names1, namesL, List.mem_cons] at hmem
        rcases hmem with hmem | hmem
        · exact absurd hmem hq
        · cases hmem
    · rw [if_neg hap] at h
      cases hch : appendChildAtL p (fun len => OrgNode.mk b bp [] len) ch with
      | none => rw [hch] at h; cases h
      | some ch' =>
        rw [hch] at h
        injection h with hn'
        subst hn'
        simp only [names1, List.mem_cons] at hmem ⊢
        rcases hmem with hmem | hmem
        · exact Or.inl hmem
        · exact Or.inr (appendChildAtL_names_new p b bp ch ch' hch q hq hmem)
theorem appendChildAtL_names_new (p b : String) (bp : Option String) (ns ns' : List OrgNode)
    (h : appendChildAtL p (fun len => OrgNode.mk b bp [] len) ns = some ns')
    (q : String) (hq : q ≠ b) (hmem : q ∈ namesL ns') : q ∈ namesL ns := by
  match ns with
  | [] => cases h
  | m :: rest =>
    simp only [appendChildAtL] at h
    cases hfm : appendChildAt1 p (fun len => OrgNode.mk b bp [] len) m with
    | some m' =>
      rw [hfm] at h
      injection h with hns'
      subst hns'
      simp only [namesL, List.mem_append] at hmem ⊢
      rcases hmem with hmem | hmem
      · exact Or.inl (appendChildAt1_names_new p b bp m m' hfm q hq hmem)
      · exact Or.inr hmem
    | none =>
      rw [hfm] at h
      cases hrest : appendChildAtL p (fun len => OrgNode.mk b bp [] len) rest with
      | none => rw [hrest] at h; cases h
      | some rest' =>
        rw [hrest] at h
        injection h with hns'
        subst hns'
        simp only [namesL, List.mem_append] at hmem ⊢
        rcases hmem with hmem | hmem
        · exact Or.inl hmem
        · exact Or.inr (appendChildAtL_names_new p b bp rest rest' hrest q hq hmem)
end

theorem appendChild_children (n : OrgNode) (mkChild : Nat → OrgNode) :
    (appendChild n mkChild).children = n.children ++ [mkChild n.children.length] := by
  cases n
  rfl

theorem names1_eq (n : OrgNode) : names1 n = n.agentName :: namesL n.children := by
  cases n
  rfl

/-! ## Claim C6 -/

/-- C6: setParent detaches the agent from wherever it sits (a no-op on
the tree when absent, and the name never survives the detach), then
re-inserts it as a new root appended at the end of the root list when
the parent argument is null or the named parent is not found, or as the
last child of the node matching the parent; from an empty tree,
setParent(A, null) then setParent(B, A) yields getParent(B) = A and
getChildren(A) = [B]. -/
theorem setParent_spec (tree : OrgTree) (a : String) :
    setParent tree a none =
      { roots := (removeFromTree tree a).roots ++
          [OrgNode.mk a none [] (removeFromTree tree a).roots.length] } ∧
    (a ∉ namesL tree.roots → removeFromTree tree a = tree) ∧
    a ∉ namesL (removeFromTree tree a).roots ∧
    (∀ p pn, (namesL (removeFromTree tree a).roots).count p = 1 →
      findNodeL (removeFromTree tree a).roots p = some pn →
      getChildren (setParent tree a (some p)) p =
        pn.children ++ [OrgNode.mk a (some p) [] pn.children.length]) ∧
    (∀ p, findNodeL (removeFromTree tree a).roots p = none →
      setParent tree a (some p) =
        { roots := (removeFromTree tree a).roots ++
            [OrgNode.mk a (some p) [] (removeFromTree tree a).roots.length] }) ∧
    getParent (setParent (setParent { roots := [] } "A" none) "B" (some "A")) "B" =
      some "A" ∧
    getChildren (setParent (setParent { roots := [] } "A" none) "B" (some "A")) "A" =
      [OrgNode.mk "B" (some "A") [] 0] := by
  refine ⟨rfl, ?_, ?_, ?_, ?_, rfl, rfl⟩
  · intro h
    show OrgTree.mk (removeNodeL a tree.roots) = tree
    rw [removeNodeL_noop a tree.roots h]
  · exact not_mem_names_removeNodeL a tree.roots
  · intro p pn hc hf
    obtain ⟨roots', h1, h2, h3, h4⟩ :=
      appendChildAtL_spec p (fun len => OrgNode.mk a (some p) [] len)
        (removeFromTree tree a).roots pn hc hf
    have hsp : setParent tree a (some p) = { roots := roots' } := by
      simp only [setParent, h1]
    rw [hsp]
    simp only [getChildren, h2, appendChild_children]
  · intro p hf
    have hnone := appendChildAtL_none p (fun len => OrgNode.mk a (some p) [] len)
      (removeFromTree tree a).roots ((findNodeL_none_iff _ p).mp hf)
    simp only [setParent, hnone]

/-- Witness for C6 at a concrete two-node tree: eng is re-inserted as
the last child of ceo. -/
theorem setParent_spec_witness :
    getChildren (setParent { roots := [OrgNode.mk "ceo" none [] 0,
        OrgNode.mk "eng" none [] 1] } "eng" (some "ceo")) "ceo" =
      [OrgNode.mk "eng" (some "ceo") [] 0] ∧
    getParent (setParent (setParent { roots := [] } "A" none) "B" (some "A")) "B" =
      some "A" :=
  have h := setParent_spec { roots := [OrgNode.mk "ceo" none [] 0,
    OrgNode.mk "eng" none [] 1] } "eng"
  ⟨h.2.2.2.1 "ceo" (OrgNode.mk "ceo" none [] 0) (by decide) rfl,
   h.2.2.2.2.2.1⟩

/-! ## Claim C10 -/

/-- C10: setParent(A, p) discards A's former subtree entirely: the node
re-inserted for A has an empty children list, so getChildren(A) is []
immediately afterwards, and every agent name that lived in A's former
subtree (its direct children and all of their descendants) is no longer
present anywhere in the tree. -/
theorem setParent_discards_subtree (tree : OrgTree) (a : String) (popt : Option String)
    (an : OrgNode) (hnd : (namesL tree.roots).Nodup)
    (hfind : findNodeL tree.roots a = some an) :
    getChildren (setParent tree a popt) a = [] ∧
    ∀ q, q ∈ namesL an.children → findNodeL (setParent tree a popt).roots q = none := by
  have hgone : a ∉ namesL (removeFromTree tree a).roots :=
    not_mem_names_removeNodeL a tree.roots
  have hanname : an.agentName = a := findNodeL_name tree.roots a an hfind
  have hannd : (names1 an).Nodup :=
    (names_findNodeL_sublist tree.roots a an hfind).nodup hnd
  have hq_facts : ∀ q, q ∈ namesL an.children →
      q ≠ a ∧ q ∉ namesL (removeFromTree tree a).roots := by
    intro q hq
    have hq1 : q ∈ names1 an := by
      rw [names1_eq an]
      exact List.mem_cons_of_mem _ hq
    constructor
    · intro hqa
      subst hqa
      rw [names1_eq an, hanname] at hannd
      exact (List.nodup_cons.mp hannd).1 hq
    · exact subtree_removedL a tree.roots an q hnd hfind hq1
  cases popt with
  | none =>
    constructor
    · simp only [setParent, getChildren]
      rw [findNodeL_append, (findNodeL_none_iff _ a).mpr hgone, findNodeL_single]
      simp [findNode1, OrgNode.children]
    · intro q hq
      obtain ⟨hqa, hqt1⟩ := hq_facts q hq
      simp only [setParent]
      rw [findNodeL_append, (findNodeL_none_iff _ q).mpr hqt1, findNodeL_single]
      have hne2 : ¬ a = q := fun hh => hqa (Eq.symm hh)
      simp [findNode1, hne2, findNodeL]
  | some p =>
    cases happ : appendChildAtL p (fun len => OrgNode.mk a (some p) [] len)
        (removeFromTree tree a).roots with
    | some roots' =>
      have hsp : setParent tree a (some p) = { roots := roots' } := by
        simp only [setParent, happ]
      rw [hsp]
      constructor
      · obtain ⟨len, hlen⟩ := appendChildAtL_find_new p a (some p) _ roots' happ hgone
        simp only [getChildren, hlen, OrgNode.children]
      · intro q hq
        obtain ⟨hqa, hqt1⟩ := hq_facts q hq
        rw [findNodeL_none_iff]
        intro hmem
        exact hqt1 (appendChildAtL_names_new p a (some p) _ roots' happ q hqa hmem)
    | none =>
      have hsp : setParent tree a (some p) =
          { roots := (removeFromTree tree a).roots ++
              [OrgNode.mk a (some p) [] (removeFromTree tree a).roots.length] } := by
        simp only [setParent, happ]
      rw [hsp]
      constructor
      · simp only [getChildren]
        rw [findNodeL_append, (findNodeL_none_iff _ a).mpr hgone, findNodeL_single]
        simp [findNode1, OrgNode.children]
      · intro q hq
        obtain ⟨hqa, hqt1⟩ := hq_facts q hq
        rw [findNodeL_append, (findNodeL_none_iff _ q).mpr hqt1, findNodeL_single]
        have hne2 : ¬ a = q := fun hh => hqa (Eq.symm hh)
        simp [findNode1, hne2, findNodeL]

/-- Witness for C10: moving an agent that has a child discards the
child; the moved node has no children afterwards. -/
theorem setParent_discards_subtree_witness :
    getChildren (setParent { roots := [OrgNode.mk "a" none
        [OrgNode.mk "c" (some "a") [] 0] 0, OrgNode.mk "p" none [] 1] } "a" (some "p"))
      "a" = [] ∧
    findNodeL (setParent { roots := [OrgNode.mk "a" none
        [OrgNode.mk "c" (some "a") [] 0] 0, OrgNode.mk "p" none [] 1] } "a" (some "p")).roots
      "c" = none :=
  have h := setParent_discards_subtree
    { roots := [OrgNode.mk "a" none [OrgNode.mk "c" (some "a") [] 0] 0,
      OrgNode.mk "p" none [] 1] } "a" (some "p")
    (OrgNode.mk "a" none [OrgNode.mk "c" (some "a") [] 0] 0) (by decide) rfl
  ⟨h.1, h.2 "c" (by decide)⟩

theorem names1_setMeta (c : OrgNode) (q : Option String) (i : Nat) :
    names1 (setMeta c q i) = names1 c := by
  cases c
  rfl

theorem reRoot_names (orphans : List OrgNode) (base : Nat) (pp : Option String) :
    namesL (reRoot orphans base pp) = namesL orphans := by
  induction orphans generalizing base with
  | nil => rfl
  | cons c rest ih => simp [reRoot, namesL, names1_setMeta, ih]

theorem names1_subset_of_mem (n : OrgNode) (ns : List OrgNode) (h : n ∈ ns) :
    names1 n ⊆ namesL ns := by
  induction ns with
  | nil => cases h
  | cons m rest ih =>
    rcases List.mem_cons.mp h with heq | htl
    · subst heq
      simp only [namesL]
      exact List.subset_append_left _ _
    · simp only [namesL]
      exact (ih htl).trans (List.subset_append_right _ _)

/-- Inside a duplicate-free node list that contains the node carrying
name a, no sibling with a different agent name hides a in its subtree. -/
theorem a_only_in_an (roots : List OrgNode) (an : OrgNode) (a : String)
    (hnd : (namesL roots).Nodup) (han : an ∈ roots) (haname : an.agentName = a)
    (ha : a ∈ names1 an) :
    ∀ c ∈ roots, c.agentName ≠ a → a ∉ names1 c := by
  induction roots with
  | nil => cases han
  | cons r rest ih =>
    simp only [namesL] at hnd
    rw [List.nodup_append] at hnd
    obtain ⟨hnd1, hnd2, hdisj⟩ := hnd
    intro c hc hcname
    rcases List.mem_cons.mp han with hane | hane
    · subst hane
      rcases List.mem_cons.mp hc with hce | hce
      · subst hce
        exact absurd haname hcname
      · intro hmem
        exact hdisj ha (names1_subset_of_mem c rest hce hmem)
    · rcases List.mem_cons.mp hc with hce | hce
      · subst hce
        intro hmem
        exact hdisj hmem (names1_subset_of_mem an rest hane ha)
      · exact ih hnd2 hane c hce hcname

theorem removeAgent_root_fold (orphans : List OrgNode) (t : OrgTree) :
    (orphans.foldl (removeAgentStep none) t).roots =
    t.roots ++ reRoot orphans t.roots.length none := by
  induction orphans generalizing t with
  | nil => simp [reRoot]
  | cons c rest ih =>
    simp only [List.foldl_cons, reRoot, removeAgentStep]
    rw [ih]
    simp [List.length_append]

theorem removeAgent_parent_fold (p : String) (orphans : List OrgNode) :
    ∀ (t : OrgTree) (pn : OrgNode),
    (namesL t.roots).count p = 1 →
    findNodeL t.roots p = some pn →
    p ∉ namesL orphans →
    ∃ res, (orphans.foldl (removeAgentStep (some p)) t) = res ∧
      findNodeL res.roots p = some (OrgNode.mk pn.agentName pn.parentAgentName
        (pn.children ++ reRoot orphans pn.children.length (some p)) pn.position) ∧
      (namesL res.roots).Perm (namesL t.roots ++ namesL orphans) := by
  induction orphans with
  | nil =>
    intro t pn hcount hfind hporph
    refine ⟨t, rfl, ?_, by simp [namesL]⟩
    cases pn with
    | mk pa pp pc ppos =>
      simpa [reRoot, OrgNode.agentName, OrgNode.parentAgentName, OrgNode.children,
        OrgNode.position] using hfind
  | cons c rest ih =>
    intro t pn hcount hfind hporph
    simp only [namesL, List.mem_append] at hporph
    push_neg at hporph
    obtain ⟨roots', h1, h2, h3, h4⟩ :=
      appendChildAtL_spec p (fun len => setMeta c (some p) len) t.roots pn hcount hfind
    have hperm1 : (namesL roots').Perm (namesL t.roots ++ names1 c) := by
      have := h3
      rwa [names1_setMeta] at this
    have hcount' : (namesL roots').count p = 1 := by
      rw [hperm1.count_eq, List.count_append]
      rw [List.count_eq_zero.mpr hporph.1]
      omega
    have hfind' : findNodeL roots' p =
        some (appendChild pn (fun len => setMeta c (some p) len)) := h2
    obtain ⟨res, hres, hfindres, hpermres⟩ := ih { roots := roots' }
      (appendChild pn (fun len => setMeta c (some p) len)) hcount' hfind' hporph.2
    refine ⟨res, ?_, ?_, ?_⟩
    · simp only [List.foldl_cons, removeAgentStep, h1]
      exact hres
    · rw [hfindres]
      cases pn with
      | mk pa pp pc ppos =>
        simp only [appendChild, OrgNode.agentName, OrgNode.parentAgentName,
          OrgNode.children, OrgNode.position, reRoot]
        rw [List.append_assoc, List.length_append]
        simp [List.length_append]
    · refine hpermres.trans ?_
      refine ((hperm1.append_right (namesL rest)).trans ?_)
      rw [List.append_assoc]
      simp [namesL]

/-! ## Claim C5 -/

/-- C5: removeAgent deletes the named node and reparents each of its
direct children to the removed node's own parent — appended in order at
the end of the root list (with parent pointer null) when the node was a
root, or at the end of the parent node's children — while the rest of
the tree (in particular every reparented child's own subtree) keeps its
structure, and the removed name is gone from the tree. -/
theorem removeAgent_spec (tree : OrgTree) (a : String) (an : OrgNode)
    (hnd : (namesL tree.roots).Nodup)
    (hfind : findNodeL tree.roots a = some an) :
    (an.parentAgentName = none → an ∈ tree.roots →
      (removeAgent tree a).roots =
        tree.roots.filter (fun n => ¬ n.agentName = a) ++
          reRoot an.children (tree.roots.filter (fun n => ¬ n.agentName = a)).length none ∧
      a ∉ namesL (removeAgent tree a).roots) ∧
    (∀ p pn, an.parentAgentName = some p → findNodeL tree.roots p = some pn →
      an ∈ pn.children →
      findNodeL (removeAgent tree a).roots p = some (OrgNode.mk pn.agentName
        pn.parentAgentName
        (pn.children.filter (fun n => ¬ n.agentName = a) ++
          reRoot an.children (pn.children.filter (fun n => ¬ n.agentName = a)).length
            (some p))
        pn.position) ∧
      a ∉ namesL (removeAgent tree a).roots) ∧
    (∀ c q i, (setMeta c q i).parentAgentName = q ∧ (setMeta c q i).children = c.children) := by
  have haname : an.agentName = a := findNodeL_name tree.roots a an hfind
  have ha_mem_an : a ∈ names1 an := haname ▸ agentName_mem_names1 an
  have hannd : (names1 an).Nodup := (names_findNodeL_sublist tree.roots a an hfind).nodup hnd
  have hA_not_orph : a ∉ namesL an.children := by
    rw [names1_eq an, haname] at hannd
    exact (List.nodup_cons.mp hannd).1
  have h0 : removeAgent tree a = an.children.foldl
      (removeAgentStep an.parentAgentName) (removeFromTree tree a) := by
    unfold removeAgent
    rw [hfind]
  refine ⟨?_, ?_, fun c q i => ⟨setMeta_parent c q i, setMeta_children c q i⟩⟩
  · intro hroot hroots
    rw [hroot] at h0
    have h1 := h0
    have hfilter : (removeFromTree tree a).roots =
        tree.roots.filter (fun n => ¬ n.agentName = a) :=
      removeNodeL_eq_filter a tree.roots
        (a_only_in_an tree.roots an a hnd hroots haname ha_mem_an)
    constructor
    · rw [h1, removeAgent_root_fold, hfilter]
    · rw [h1]
      have hroots2 := removeAgent_root_fold an.children (removeFromTree tree a)
      rw [hroots2, namesL_append, reRoot_names]
      intro hmem
      rcases List.mem_append.mp hmem with hmem | hmem
      · exact not_mem_names_removeNodeL a tree.roots hmem
      · exact hA_not_orph hmem
  · intro p pn hp hfp hmem
    have hpname : pn.agentName = p := findNodeL_name tree.roots p pn hfp
    have hnd_pn : (names1 pn).Nodup :=
      (names_findNodeL_sublist tree.roots p pn hfp).nodup hnd
    have hp_not_ch : p ∉ namesL pn.children := by
      rw [names1_eq pn, hpname] at hnd_pn
      exact (List.nodup_cons.mp hnd_pn).1
    have hpan : p ∉ names1 an :=
      fun h => hp_not_ch (names1_subset_of_mem an pn.children hmem h)
    have hfp1 : findNodeL (removeFromTree tree a).roots p = some (removeNode1 a pn) :=
      findNodeL_removeNodeL a p tree.roots an pn hnd hfind hfp hpan
    have hc_le : ((namesL (removeFromTree tree a).roots).count p ≤
        (namesL tree.roots).count p) :=
      (names_removeNodeL_sublist a tree.roots).count_le p
    have hc_one : (namesL tree.roots).count p = 1 :=
      List.count_eq_one_of_mem hnd (findNodeL_mem_of_some tree.roots p pn hfp)
    have hc_pos : 0 < (namesL (removeFromTree tree a).roots).count p :=
      List.count_pos_iff_mem.mpr
        (findNodeL_mem_of_some _ p (removeNode1 a pn) hfp1)
    have hcount1 : (namesL (removeFromTree tree a).roots).count p = 1 := by omega
    have hporph : p ∉ namesL an.children := by
      intro h
      exact hpan (by rw [names1_eq an]; exact List.mem_cons_of_mem _ h)
    rw [hp] at h0
    have h1 := h0
    obtain ⟨res, hres, hfr, hperm⟩ := removeAgent_parent_fold p an.children
      (removeFromTree tree a) (removeNode1 a pn) hcount1 hfp1 hporph
    have hch_filter : removeNodeL a pn.children =
        pn.children.filter (fun n => ¬ n.agentName = a) :=
      removeNodeL_eq_filter a pn.children
        (a_only_in_an pn.children an a (by
          rw [names1_eq pn] at hnd_pn
          exact List.Nodup.of_cons hnd_pn) hmem haname ha_mem_an)
    constructor
    · rw [h1, hres, hfr]
      cases pn with
      | mk pa pp pc ppos =>
        simp only [removeNode1, OrgNode.agentName, OrgNode.parentAgentName,
          OrgNode.children, OrgNode.position] at hch_filter ⊢
        rw [hch_filter]
    · rw [h1, hres]
      intro hmem2
      rcases List.mem_append.mp (hperm.subset hmem2) with hmem2 | hmem2
      · exact not_mem_names_removeNodeL a tree.roots hmem2
      · exact hA_not_orph hmem2

/-- Witness for C5: removing the middle manager from ceo→mid→{x,y}
hands x and y to ceo, in order, with updated parent pointers, and mid is
gone. -/
theorem removeAgent_spec_witness :
    (namesL c5tree.roots).Nodup ∧
    findNodeL c5tree.roots "mid" = some c5mid ∧
    c5mid.parentAgentName = some "ceo" ∧
    findNodeL c5tree.roots "ceo" = some c5ceo ∧
    findNodeL (removeAgent c5tree "mid").roots "ceo" =
      some (OrgNode.mk "ceo" none
        [OrgNode.mk "x" (some "ceo") [] 0, OrgNode.mk "y" (some "ceo") [] 1] 0) ∧
    "mid" ∉ namesL (removeAgent c5tree "mid").roots := by
  have hnd : (namesL c5tree.roots).Nodup := by decide
  have hfind : findNodeL c5tree.roots "mid" = some c5mid := rfl
  have h := (removeAgent_spec c5tree "mid" c5mid hnd hfind).2.1 "ceo" c5ceo rfl rfl
    (List.Mem.head _)
  exact ⟨hnd, hfind, rfl, rfl, h.1, h.2⟩
